import Mathlib

/-!
# Pinecone query plugin: relevance normalisation and result assembly

A shallow embedding of `src/implementation.js`.

* JavaScript numbers are read in two ways, both over a linearly ordered field `F` with a
  floor function, so that the definitions run on `ℚ`; the theorems are stated for `F = ℝ`.
  `Math.exp` and `Math.sqrt` are parameters of every definition that calls them.
  - Exact arithmetic (`normalizeRelevanceScore`): no operation rounds.  It carries the
    properties that rounding does not touch: the range of the result, the quartile indices,
    the fences, the guards.  There `Math.exp` and `Math.sqrt` are `Real.exp` and `Real.sqrt`.
  - Binary64 arithmetic (`Binary64.normalizeRelevanceScore`): every operation rounds to the
    nearest binary64 number.  It carries the properties that rounding decides: the cosine
    numeral, the result at the mean, monotonicity in the score.
* `Number.prototype.toFixed` yields a decimal numeral.  It is modelled by the record `Fixed`
  (sign, digit count and the integer `n` chosen by the ECMAScript algorithm); `Fixed.render`
  is the string and `Fixed.value` the number that the string denotes.
* The three provider round trips of `query_pinecone_database` are modelled by their responses,
  which are inputs of the model.
* On an empty list of matches JavaScript computes `0 / 0` and reads `undefined` from the
  sorted list; the model is meant for non-empty lists, the precondition of the normaliser,
  and the theorems on the normaliser carry it as a hypothesis.
-/

namespace PineconeQuery

/-! ## Numbers and `toFixed` -/

/-- The result of `x.toFixed(f)`: an optional minus sign, the integer `n` for which
`n / 10^f` is closest to `|x|` (the larger one on a tie) and the digit count `f`. -/
structure Fixed where
  neg : Bool
  n : Nat
  f : Nat
  deriving DecidableEq, Repr

/-- The method `Number.prototype.toFixed`, steps 8 to 11 of the ECMAScript algorithm:
`If x < 0, set s to "-" and x to -x`; then `n` is the integer for which `n / 10^f - x`
is as close to zero as possible, the larger such `n` if there are two.  The algorithm's
other case, exponent notation for `x ≥ 10^21`, is left out: below `10^21` the model is the
algorithm, and every value formatted in the theorems lies there. -/
def toFixed {F : Type} [LinearOrderedField F] [FloorRing F] (x : F) (f : Nat) : Fixed :=
  let neg := decide (x < 0)
  let x := if x < 0 then -x else x
  { neg := neg, n := Nat.floor (x * 10 ^ f + 1 / 2), f := f }

/-- The string of a `toFixed` result, step 11 of the ECMAScript algorithm: the decimal digits
of `n`, padded on the left with zeros to `f + 1` characters, with a point before the last
`f` of them, after the sign. -/
def Fixed.render (d : Fixed) : String :=
  let s := if d.neg then "-" else ""
  let m := Nat.toDigits 10 d.n
  if d.f = 0 then s ++ String.mk m
  else
    let m := if m.length ≤ d.f then List.replicate (d.f + 1 - m.length) '0' ++ m else m
    let k := m.length
    s ++ String.mk (m.take (k - d.f)) ++ "." ++ String.mk (m.drop (k - d.f))

/-- The number that the numeral of a `toFixed` result denotes. -/
def Fixed.value {F : Type} [LinearOrderedField F] (d : Fixed) : F :=
  (if d.neg then -1 else 1) * ((d.n : F) / 10 ^ d.f)

/-! ## Matches -/

/-- A metadata value as the search provider returns it in JSON. -/
inductive JsValue where
  | null
  | bool (b : Bool)
  | num (x : ℚ)
  | str (s : String)
  | list (xs : List String)
  deriving DecidableEq, Repr

/-- A metadata record: a JSON object, as its key/value entries. -/
abbrev Metadata := List (String × JsValue)

/-- One entry of the `matches` array of the search response. -/
structure Match (F : Type) where
  score : F
  metadata : Metadata

/-! ## The score normaliser -/

/-- The JavaScript expression `x || 1` on a number: `1` when `x` is falsy, that is zero. -/
def orOne {F : Type} [LinearOrderedField F] (x : F) : F :=
  if x = 0 then 1 else x

/-- The pair that `calculateStats` returns. -/
structure Stats (F : Type) where
  mean : F
  stdDev : F

/-- The helper `calculateStats` of `normalizeRelevanceScore`. -/
def calculateStats {F : Type} [LinearOrderedField F] (sqrt : F → F) (scores : List F) : Stats F :=
  let mean := scores.foldl (fun a b => a + b) 0 / (scores.length : F)
  let variance := scores.foldl (fun a b => a + (b - mean) ^ 2) 0 / (scores.length : F)
  let stdDev := sqrt variance
  { mean := mean, stdDev := stdDev }

/-- The helper `minMaxNormalize` of `normalizeRelevanceScore`. -/
def minMaxNormalize {F : Type} [LinearOrderedField F] (score min max : F) : F :=
  if max = min then 1 else (score - min) / (max - min)

/-- The expression `[...scores].sort((a, b) => a - b)`: the scores in ascending order. -/
def sortedScores {F : Type} [LinearOrderedField F] (scores : List F) : List F :=
  scores.insertionSort (fun a b => a ≤ b)

/-- The index `Math.floor(sortedScores.length * 0.25)`. -/
def q1Index (F : Type) [LinearOrderedField F] [FloorRing F] (n : Nat) : Nat :=
  Nat.floor ((n : F) * 0.25)

/-- The index `Math.floor(sortedScores.length * 0.75)`. -/
def q3Index (F : Type) [LinearOrderedField F] [FloorRing F] (n : Nat) : Nat :=
  Nat.floor ((n : F) * 0.75)

/-- The constant `q1` of the `other` branch.  An index outside the list reads as `0` here
(JavaScript yields `undefined`); on a non-empty list the index is inside. -/
def q1 {F : Type} [LinearOrderedField F] [FloorRing F] (scores : List F) : F :=
  (sortedScores scores).getD (q1Index F (sortedScores scores).length) 0

/-- The constant `q3` of the `other` branch, read like `q1`. -/
def q3 {F : Type} [LinearOrderedField F] [FloorRing F] (scores : List F) : F :=
  (sortedScores scores).getD (q3Index F (sortedScores scores).length) 0

/-- The constant `iqr` of the `other` branch. -/
def iqr {F : Type} [LinearOrderedField F] [FloorRing F] (scores : List F) : F :=
  q3 scores - q1 scores

/-- The constant `validMin` of the `other` branch: the lower Tukey fence. -/
def validMin {F : Type} [LinearOrderedField F] [FloorRing F] (scores : List F) : F :=
  q1 scores - 1.5 * iqr scores

/-- The constant `validMax` of the `other` branch: the upper Tukey fence. -/
def validMax {F : Type} [LinearOrderedField F] [FloorRing F] (scores : List F) : F :=
  q3 scores + 1.5 * iqr scores

/-- The constant `temperature` of the `dotproduct` branch, and the value of `stdDev || 1`
in the `euclidean` branch. -/
def temperature {F : Type} [LinearOrderedField F] (sqrt : F → F) (scores : List F) : F :=
  orOne (calculateStats sqrt scores).stdDev

/-- The number that `normalizeRelevanceScore` hands to `toFixed(4)`, branch by branch. -/
def relevanceValue {F : Type} [LinearOrderedField F] [FloorRing F] (exp sqrt : F → F)
    (score : F) (metric : String) (matchSet : List (Match F)) : F :=
  if metric = "cosine" then
    let normalizedBase := (1 + score) / 2
    normalizedBase ^ 2
  else if metric = "euclidean" then
    let scores := matchSet.map (fun m => m.score)
    let mean := (calculateStats sqrt scores).mean
    let stdDev := (calculateStats sqrt scores).stdDev
    let gaussian := exp (-(score - mean) ^ 2 / (2 * (orOne stdDev) ^ 2))
    1 - gaussian
  else if metric = "dotproduct" then
    let scores := matchSet.map (fun m => m.score)
    let mean := (calculateStats sqrt scores).mean
    let shifted := (score - mean) / temperature sqrt scores
    1 / (1 + exp (-2 * shifted))
  else if metric = "other" then
    let scores := matchSet.map (fun m => m.score)
    minMaxNormalize (max (validMin scores) (min (validMax scores) score))
      (validMin scores) (validMax scores)
  else
    score

/-- The function `normalizeRelevanceScore(score, metric, matches)`. -/
def normalizeRelevanceScore {F : Type} [LinearOrderedField F] [FloorRing F] (exp sqrt : F → F)
    (score : F) (metric : String) (matchSet : List (Match F)) : Fixed :=
  if metric = "cosine" then
    let normalizedBase := (1 + score) / 2
    toFixed (normalizedBase ^ 2) 4
  else if metric = "euclidean" then
    let scores := matchSet.map (fun m => m.score)
    let mean := (calculateStats sqrt scores).mean
    let stdDev := (calculateStats sqrt scores).stdDev
    let gaussian := exp (-(score - mean) ^ 2 / (2 * (orOne stdDev) ^ 2))
    toFixed (1 - gaussian) 4
  else if metric = "dotproduct" then
    let scores := matchSet.map (fun m => m.score)
    let mean := (calculateStats sqrt scores).mean
    let temperature := temperature sqrt scores
    let shifted := (score - mean) / temperature
    toFixed (1 / (1 + exp (-2 * shifted))) 4
  else if metric = "other" then
    let scores := matchSet.map (fun m => m.score)
    toFixed (minMaxNormalize (max (validMin scores) (min (validMax scores) score))
      (validMin scores) (validMax scores)) 4
  else
    toFixed score 4

/-! ## Strings and metadata records -/

/-- The JavaScript expression `s || d` on an optional string setting: `d` when `s` is
`undefined` or the empty string. -/
def orDefault (s : Option String) (d : String) : String :=
  match s with
  | some v => if v = "" then d else v
  | none => d

/-- The pieces of `s.split(',')`, on the characters of `s`. -/
def splitComma (s : List Char) : List (List Char) :=
  s.foldr (fun c acc =>
    if c = ',' then [] :: acc
    else match acc with
      | [] => [[c]]
      | piece :: rest => (c :: piece) :: rest) [[]]

/-- The characters that `String.prototype.trim` strips: ECMAScript `WhiteSpace` and
`LineTerminator`. -/
def isJsWhiteSpace (c : Char) : Bool :=
  let n := c.toNat
  n = 0x9 || n = 0xA || n = 0xB || n = 0xC || n = 0xD || n = 0x20 || n = 0xA0 || n = 0x1680
    || (0x2000 ≤ n && n ≤ 0x200A) || n = 0x2028 || n = 0x2029 || n = 0x202F || n = 0x205F
    || n = 0x3000 || n = 0xFEFF

/-- The method `field.trim()`, on the characters of `field`. -/
def trim (field : List Char) : List Char :=
  ((field.dropWhile isJsWhiteSpace).reverse.dropWhile isJsWhiteSpace).reverse

/-- The constant `fields`:
`metadataFields ? metadataFields.split(',').map(field => field.trim()) : null`. -/
def parseFields (metadataFields : Option String) : Option (List String) :=
  match metadataFields with
  | some s => if s = "" then none else some ((splitComma s.data).map (fun field => String.mk (trim field)))
  | none => none

/-- JavaScript truthiness of a metadata value. -/
def truthy : JsValue → Bool
  | .null => false
  | .bool b => b
  | .num x => decide (x ≠ 0)
  | .str s => decide (s ≠ "")
  | .list _ => true

/-- The property read `metadata[field]` on the record's own entries; `none` is `undefined`.
Properties that a JavaScript object inherits (`constructor`, `toString`, ...) are not
modelled: the fields read are taken to be names of metadata fields. -/
def getProp (metadata : Metadata) (field : String) : Option JsValue :=
  metadata.lookup field

/-- The expression `v || null` on the result of a property read. -/
def orNull (v : Option JsValue) : JsValue :=
  match v with
  | some x => if truthy x then x else JsValue.null
  | none => JsValue.null

/-- One step of `Object.fromEntries`: define or overwrite the property `k`. -/
def setProp (o : Metadata) (k : String) (v : JsValue) : Metadata :=
  if o.any (fun e => e.1 = k) then o.map (fun e => if e.1 = k then (k, v) else e)
  else o ++ [(k, v)]

/-- The function `Object.fromEntries` on a list of key/value pairs.  The entries are kept in
the order of definition; JavaScript lists integer-like keys first, which changes the order
of the entries and neither the keys nor the values. -/
def fromEntries (entries : List (String × JsValue)) : Metadata :=
  entries.foldl (fun o e => setProp o e.1 e.2) []

/-- The constant `metadata` of both result-building callbacks:
`fields ? Object.fromEntries(fields.map(field => [field, match.metadata[field] || null]))
: match.metadata`. -/
def selectMetadata (fields : Option (List String)) (metadata : Metadata) : Metadata :=
  match fields with
  | some fs => fromEntries (fs.map (fun field => (field, orNull (getProp metadata field))))
  | none => metadata

/-! ## Providers and the query entry point -/

/-- The outcome of one `fetch`: a response that is not ok, with its status and the text
`JSON.stringify(errorData)`, or the parsed body of a successful one. -/
inductive HttpResponse (α : Type) where
  | failure (status : Nat) (errorData : String)
  | success (data : α)

/-- One entry of `data.data` in the embedding response. -/
structure EmbeddingItem (F : Type) where
  embedding : Option (List F)

/-- The body of the embedding response. -/
structure EmbeddingData (F : Type) where
  data : Option (List (EmbeddingItem F))

/-- The body of the search response. -/
structure SearchData (F : Type) where
  «matches» : Option (List (Match F))

/-- One entry of `data.results` in the rerank response. -/
structure RerankResult (F : Type) where
  index : Nat
  relevance_score : F

/-- The body of the rerank response. -/
structure RerankData (F : Type) where
  results : Option (List (RerankResult F))

/-- The responses of the three providers to the requests of one query. -/
structure Responses (F : Type) where
  openai : HttpResponse (EmbeddingData F)
  pinecone : HttpResponse (Option (SearchData F))
  cohere : HttpResponse (Option (RerankData F))

/-- The settings that decide what is returned, each a string or absent; the remaining ones
(keys, host, model names, counts) only shape the requests. -/
structure UserSettings where
  enableRerank : Option String
  similarityMetric : Option String
  metadataFields : Option String

/-- One record of the returned list. -/
structure RelevanceResult where
  relevance : Fixed
  metadata : Metadata
  deriving DecidableEq, Repr

/-- What `query_pinecone_database` resolves to: a list of records or a string. -/
inductive QueryOutput where
  | results (records : List RelevanceResult)
  | text (message : String)
  deriving DecidableEq, Repr

/-- The `catch` blocks: the error is thrown again behind a prefix. -/
def rethrow {α : Type} (stage : String) (r : Except String α) : Except String α :=
  match r with
  | .ok v => .ok v
  | .error message => .error (stage ++ message)

/-- The function `vectorizeQuery`, given the embedding provider's response. -/
def vectorizeQuery {F : Type} (response : HttpResponse (EmbeddingData F)) :
    Except String (List F) :=
  rethrow "Failed to vectorize query: " <|
    match response with
    | .failure status errorData =>
      .error ("OpenAI API Error: " ++ toString status ++ " - " ++ errorData)
    | .success data =>
      match data.data with
      | some (item :: _) =>
        match item.embedding with
        | some embedding => .ok embedding
        | none => .error "Invalid response from OpenAI API: Embedding not found"
      | _ => .error "Invalid response from OpenAI API: Embedding not found"

/-- The function `rerankWithCohere`, given the rerank provider's response.  A result whose
`index` is outside `pineconeResults` makes `match.metadata` throw a `TypeError`. -/
def rerankWithCohere {F : Type} [LinearOrderedField F] [FloorRing F]
    (pineconeResults : List (Match F)) (userSettings : UserSettings)
    (response : HttpResponse (Option (RerankData F))) : Except String (List RelevanceResult) :=
  let fields := parseFields userSettings.metadataFields
  rethrow "Failed to rerank with Cohere: " <|
    match response with
    | .failure status errorData =>
      .error ("Cohere API Error: " ++ toString status ++ " - " ++ errorData)
    | .success data =>
      match data.bind (fun d => d.results) with
      | some results =>
        results.mapM (fun result =>
          let originalIndex := result.index
          match pineconeResults.get? originalIndex with
          | some m =>
            .ok { relevance := toFixed result.relevance_score 2,
                  metadata := selectMetadata fields m.metadata }
          | none => .error "Cannot read properties of undefined (reading 'metadata')")
      | none => .error "Invalid response from Cohere API: Rerank results not found"

/-- The function `query_pinecone_database`, given the responses of the three providers. -/
def query_pinecone_database {F : Type} [LinearOrderedField F] [FloorRing F] (exp sqrt : F → F)
    (userSettings : UserSettings) (responses : Responses F) : Except String QueryOutput :=
  let rerankEnabled := orDefault userSettings.enableRerank "false" = "true"
  let metric := orDefault userSettings.similarityMetric "cosine"
  let fields := parseFields userSettings.metadataFields
  rethrow "Failed to query Pinecone: " <|
    match vectorizeQuery responses.openai with
    | .error message => .error message
    | .ok _ =>
      match responses.pinecone with
      | .failure status errorData =>
        .error ("Pinecone API Error: " ++ toString status ++ " - " ++ errorData)
      | .success data =>
        match data.bind (fun d => d.«matches») with
        | some ms =>
          if rerankEnabled then
            match rerankWithCohere ms userSettings responses.cohere with
            | .ok records => .ok (QueryOutput.results records)
            | .error message => .error message
          else
            .ok (QueryOutput.results (ms.map (fun m =>
              { relevance := normalizeRelevanceScore exp sqrt m.score metric ms,
                metadata := selectMetadata fields m.metadata })))
        | none => .ok (QueryOutput.text "No matching results found in Pinecone.")

/-! ## The wording of the specification -/

/-- Rounding to `d` decimals in the words of the specification, `round(x, d)`: the nearest
multiple of `10^-d`, the upper one on a tie. -/
def specRound {F : Type} [LinearOrderedField F] [FloorRing F] (x : F) (d : Nat) : F :=
  (Int.floor (x * 10 ^ d + 1 / 2) : F) / 10 ^ d

/-- The population mean in the words of the specification: the sum over the count. -/
def specMean {F : Type} [LinearOrderedField F] (scores : List F) : F :=
  scores.sum / (scores.length : F)

/-! ## The normaliser in binary64 arithmetic

A second reading of `normalizeRelevanceScore`, in which every arithmetic operation rounds its
exact result to the nearest binary64 number, ties to even, as IEEE 754 prescribes.  The
exponent range is not bounded (no overflow to infinity, no subnormal numbers), and the
scores are taken to be binary64 numbers already.  `Math.exp` and `Math.sqrt` stay parameters;
`Math.pow(x, 2)` is read as the rounded exact square. -/

namespace Binary64

/-- The integer nearest to `q`, the even one of the two when `q` lies halfway. -/
def roundHalfEven {F : Type} [LinearOrderedField F] [FloorRing F] (q : F) : Int :=
  if q - (Int.floor q : F) < 1 / 2 then Int.floor q
  else if 1 / 2 < q - (Int.floor q : F) then Int.floor q + 1
  else if Int.floor q % 2 = 0 then Int.floor q
  else Int.floor q + 1

/-- The spacing of the binary64 numbers around `x`: `2^(e-52)` for `2^e ≤ |x| < 2^(e+1)`. -/
def ulp {F : Type} [LinearOrderedField F] [FloorRing F] (x : F) : F :=
  (2 : F) ^ (Int.log 2 |x| - 52)

/-- Rounding to binary64: the multiple of `ulp x` nearest to `x`, ties to the even
significand. -/
def fl {F : Type} [LinearOrderedField F] [FloorRing F] (x : F) : F :=
  (if x < 0 then -1 else 1) * ((roundHalfEven (|x| / ulp x) : F) * ulp x)

/-- A library function followed by rounding to binary64: the reading of `Math.exp` and
`Math.sqrt` where a theorem evaluates them on a concrete input. -/
def rounded {F : Type} [LinearOrderedField F] [FloorRing F] (f : F → F) (x : F) : F :=
  fl (f x)

/-- The call `Math.pow(x, n)` for a small whole exponent, read as the rounded exact power. -/
def pow {F : Type} [LinearOrderedField F] [FloorRing F] (x : F) (n : Nat) : F :=
  fl (x ^ n)

/-- The helper `calculateStats` of `normalizeRelevanceScore`, operation by operation. -/
def calculateStats {F : Type} [LinearOrderedField F] [FloorRing F] (sqrt : F → F)
    (scores : List F) : Stats F :=
  let mean := fl (scores.foldl (fun a b => fl (a + b)) 0 / (scores.length : F))
  let variance :=
    fl (scores.foldl (fun a b => fl (a + pow (fl (b - mean)) 2)) 0 / (scores.length : F))
  let stdDev := sqrt variance
  { mean := mean, stdDev := stdDev }

/-- The helper `minMaxNormalize` of `normalizeRelevanceScore`, operation by operation. -/
def minMaxNormalize {F : Type} [LinearOrderedField F] [FloorRing F] (score min max : F) : F :=
  if max = min then 1 else fl (fl (score - min) / fl (max - min))

/-- The index `Math.floor(sortedScores.length * 0.25)`. -/
def q1Index (F : Type) [LinearOrderedField F] [FloorRing F] (n : Nat) : Nat :=
  Nat.floor (fl ((n : F) * 0.25))

/-- The index `Math.floor(sortedScores.length * 0.75)`. -/
def q3Index (F : Type) [LinearOrderedField F] [FloorRing F] (n : Nat) : Nat :=
  Nat.floor (fl ((n : F) * 0.75))

/-- The constant `q1` of the `other` branch. -/
def q1 {F : Type} [LinearOrderedField F] [FloorRing F] (scores : List F) : F :=
  (sortedScores scores).getD (q1Index F (sortedScores scores).length) 0

/-- The constant `q3` of the `other` branch. -/
def q3 {F : Type} [LinearOrderedField F] [FloorRing F] (scores : List F) : F :=
  (sortedScores scores).getD (q3Index F (sortedScores scores).length) 0

/-- The constant `iqr` of the `other` branch. -/
def iqr {F : Type} [LinearOrderedField F] [FloorRing F] (scores : List F) : F :=
  fl (q3 scores - q1 scores)

/-- The constant `validMin` of the `other` branch. -/
def validMin {F : Type} [LinearOrderedField F] [FloorRing F] (scores : List F) : F :=
  fl (q1 scores - fl (1.5 * iqr scores))

/-- The constant `validMax` of the `other` branch. -/
def validMax {F : Type} [LinearOrderedField F] [FloorRing F] (scores : List F) : F :=
  fl (q3 scores + fl (1.5 * iqr scores))

/-- The constant `temperature` of the `dotproduct` branch: `stdDev || 1`. -/
def temperature {F : Type} [LinearOrderedField F] [FloorRing F] (sqrt : F → F)
    (scores : List F) : F :=
  orOne (calculateStats sqrt scores).stdDev

/-- The function `normalizeRelevanceScore(score, metric, matches)`, operation by operation
in binary64 arithmetic. -/
def normalizeRelevanceScore {F : Type} [LinearOrderedField F] [FloorRing F] (exp sqrt : F → F)
    (score : F) (metric : String) (matchSet : List (Match F)) : Fixed :=
  if metric = "cosine" then
    let normalizedBase := fl (fl (1 + score) / 2)
    toFixed (pow normalizedBase 2) 4
  else if metric = "euclidean" then
    let scores := matchSet.map (fun m => m.score)
    let mean := (calculateStats sqrt scores).mean
    let stdDev := (calculateStats sqrt scores).stdDev
    let gaussian := exp (fl (-(pow (fl (score - mean)) 2) / fl (2 * pow (orOne stdDev) 2)))
    toFixed (fl (1 - gaussian)) 4
  else if metric = "dotproduct" then
    let scores := matchSet.map (fun m => m.score)
    let mean := (calculateStats sqrt scores).mean
    let temperature := temperature sqrt scores
    let shifted := fl (fl (score - mean) / temperature)
    toFixed (fl (1 / fl (1 + exp (fl (-2 * shifted))))) 4
  else if metric = "other" then
    let scores := matchSet.map (fun m => m.score)
    toFixed (minMaxNormalize (max (validMin scores) (min (validMax scores) score))
      (validMin scores) (validMax scores)) 4
  else
    toFixed score 4

end Binary64

/-! ## Lemmas on `toFixed` -/

theorem render_fraction_length (d : Fixed) (hf : d.f ≠ 0) :
    ∃ a b : List Char,
      d.render = (if d.neg then "-" else "") ++ String.mk a ++ "." ++ String.mk b
      ∧ b.length = d.f := by
  unfold Fixed.render
  rw [if_neg hf]
  refine ⟨_, _, rfl, ?_⟩
  rw [List.length_drop]
  split_ifs with h
  · simp only [List.length_append, List.length_replicate]; omega
  · omega

section ToFixed

variable {F : Type} [LinearOrderedField F] [FloorRing F]

theorem toFixed_of_nonneg (x : F) (f : Nat) (hx : 0 ≤ x) :
    toFixed x f = { neg := false, n := Nat.floor (x * 10 ^ f + 1 / 2), f := f } := by
  have h : ¬ x < 0 := not_lt.mpr hx
  simp [toFixed, h]

theorem toFixed_zero (f : Nat) : toFixed (0 : F) f = { neg := false, n := 0, f := f } := by
  rw [toFixed_of_nonneg 0 f le_rfl]
  have h : Nat.floor ((0 : F) * 10 ^ f + 1 / 2) = 0 := by
    rw [Nat.floor_eq_zero]; norm_num
  rw [h]

theorem toFixed_one (f : Nat) : toFixed (1 : F) f = { neg := false, n := 10 ^ f, f := f } := by
  rw [toFixed_of_nonneg 1 f zero_le_one]
  have h : Nat.floor ((1 : F) * 10 ^ f + 1 / 2) = 10 ^ f := by
    rw [Nat.floor_eq_iff (by positivity)]
    constructor
    · push_cast; linarith
    · push_cast; linarith
  rw [h]

theorem toFixed_value_of_nonneg (x : F) (f : Nat) (hx : 0 ≤ x) :
    (toFixed x f).value = specRound x f := by
  rw [toFixed_of_nonneg x f hx]
  have h0 : (0 : F) ≤ x * 10 ^ f + 1 / 2 := by positivity
  have hc : ((Nat.floor (x * 10 ^ f + 1 / 2) : Nat) : F) = ((Int.floor (x * 10 ^ f + 1 / 2) : Int) : F) := by
    rw [← Int.cast_natCast, Int.natCast_floor_eq_floor h0]
  simp only [Fixed.value, specRound, Bool.false_eq_true, if_false, one_mul, hc]

theorem toFixed_value_mono (x y : F) (f : Nat) (hx : 0 ≤ x) (hxy : x ≤ y) :
    (toFixed x f).value (F := F) ≤ (toFixed y f).value := by
  rw [toFixed_of_nonneg x f hx, toFixed_of_nonneg y f (hx.trans hxy)]
  have hn : Nat.floor (x * 10 ^ f + 1 / 2) ≤ Nat.floor (y * 10 ^ f + 1 / 2) := by
    apply Nat.floor_mono
    have : x * 10 ^ f ≤ y * 10 ^ f := mul_le_mul_of_nonneg_right hxy (by positivity)
    linarith
  have hn' : ((Nat.floor (x * 10 ^ f + 1 / 2) : Nat) : F) ≤ (Nat.floor (y * 10 ^ f + 1 / 2) : Nat) := by
    exact_mod_cast hn
  simp only [Fixed.value, Bool.false_eq_true, if_false, one_mul]
  exact div_le_div_of_nonneg_right hn' (by positivity)

theorem toFixed_value_nonneg (x : F) (f : Nat) (hx : 0 ≤ x) :
    (0 : F) ≤ (toFixed x f).value := by
  rw [toFixed_of_nonneg x f hx]
  simp only [Fixed.value, Bool.false_eq_true, if_false, one_mul]
  positivity

theorem toFixed_value_le_one (x : F) (f : Nat) (hx : 0 ≤ x) (h1 : x ≤ 1) :
    (toFixed x f).value ≤ (1 : F) := by
  have h := toFixed_value_mono x 1 f hx h1
  rw [toFixed_one] at h
  have h10 : (0 : F) < 10 ^ f := by positivity
  simpa [Fixed.value, h10.ne'] using h

end ToFixed

/-! ## Lemmas on the statistics and the quartiles -/

section Stats

variable {F : Type} [LinearOrderedField F]

theorem foldl_add_eq_sum (scores : List F) (a : F) :
    scores.foldl (fun a b => a + b) a = a + scores.sum := by
  induction scores generalizing a with
  | nil => simp
  | cons x xs ih => simp [List.foldl_cons, ih, add_assoc]

theorem calculateStats_mean (sqrt : F → F) (scores : List F) :
    (calculateStats sqrt scores).mean = specMean scores := by
  simp [calculateStats, specMean, foldl_add_eq_sum]

theorem orOne_ne_zero (x : F) : orOne x ≠ 0 := by
  unfold orOne
  split_ifs with h
  · exact one_ne_zero
  · exact h

theorem length_sortedScores (scores : List F) : (sortedScores scores).length = scores.length :=
  List.length_insertionSort _ scores

theorem sorted_sortedScores (scores : List F) :
    (sortedScores scores).Sorted (fun a b => a ≤ b) :=
  List.sorted_insertionSort _ scores

theorem mem_sortedScores (scores : List F) (x : F) : x ∈ sortedScores scores ↔ x ∈ scores :=
  List.mem_insertionSort _

theorem get?_eq_some_getD {α : Type} (l : List α) (i : Nat) (d : α) (h : i < l.length) :
    l.get? i = some (l.getD i d) := by
  rw [List.getD_eq_getElem _ _ h, List.get?_eq_getElem?, List.getElem?_eq_getElem h]

theorem sortedScores_getD_le (scores : List F) (i j : Nat) (hij : i ≤ j)
    (hj : j < scores.length) :
    (sortedScores scores).getD i 0 ≤ (sortedScores scores).getD j 0 := by
  have hj' : j < (sortedScores scores).length := by rw [length_sortedScores]; exact hj
  have hi' : i < (sortedScores scores).length := lt_of_le_of_lt hij hj'
  rw [List.getD_eq_getElem _ _ hi', List.getD_eq_getElem _ _ hj']
  exact (sorted_sortedScores scores).rel_get_of_le (a := ⟨i, hi'⟩) (b := ⟨j, hj'⟩) (by simpa using hij)

theorem sortedScores_getD_mem (scores : List F) (i : Nat) (hi : i < scores.length) :
    (sortedScores scores).getD i 0 ∈ scores := by
  have hi' : i < (sortedScores scores).length := by rw [length_sortedScores]; exact hi
  rw [List.getD_eq_getElem _ _ hi', ← mem_sortedScores]
  exact List.getElem_mem _

end Stats

section Quartiles

variable {F : Type} [LinearOrderedField F] [FloorRing F]

theorem q1Index_eq (n : Nat) : q1Index F n = n / 4 := by
  unfold q1Index
  have h : (n : F) * 0.25 = (n : F) / ((4 : Nat) : F) := by
    push_cast; norm_num; ring
  rw [h, Nat.floor_div_eq_div]

theorem q3Index_eq (n : Nat) : q3Index F n = 3 * n / 4 := by
  unfold q3Index
  have h : (n : F) * 0.75 = ((3 * n : Nat) : F) / ((4 : Nat) : F) := by
    push_cast; norm_num; ring
  rw [h, Nat.floor_div_eq_div]

theorem q1_le_q3 (scores : List F) (hne : scores ≠ []) : q1 scores ≤ q3 scores := by
  have hpos : 0 < scores.length := List.length_pos.mpr hne
  unfold q1 q3
  rw [q1Index_eq, q3Index_eq, length_sortedScores]
  exact sortedScores_getD_le scores _ _ (by omega) (by omega)

theorem q1_mem (scores : List F) (hne : scores ≠ []) : q1 scores ∈ scores := by
  have hpos : 0 < scores.length := List.length_pos.mpr hne
  unfold q1
  rw [q1Index_eq, length_sortedScores]
  exact sortedScores_getD_mem scores _ (by omega)

theorem q3_mem (scores : List F) (hne : scores ≠ []) : q3 scores ∈ scores := by
  have hpos : 0 < scores.length := List.length_pos.mpr hne
  unfold q3
  rw [q3Index_eq, length_sortedScores]
  exact sortedScores_getD_mem scores _ (by omega)

theorem validMin_le_validMax (scores : List F) (hne : scores ≠ []) :
    validMin scores ≤ validMax scores := by
  have h := q1_le_q3 scores hne
  unfold validMin validMax iqr
  have h15 : (1.5 : F) = 3 / 2 := by norm_num
  rw [h15]
  linarith

theorem validMax_sub_validMin (scores : List F) :
    validMax scores - validMin scores = 4 * (q3 scores - q1 scores) := by
  unfold validMin validMax iqr
  have h15 : (1.5 : F) = 3 / 2 := by norm_num
  rw [h15]
  ring

end Quartiles

/-! ## The branch `other` -/

section Other

variable {F : Type} [LinearOrderedField F] [FloorRing F]

theorem normalize_eq_toFixed (exp sqrt : F → F) (score : F) (metric : String)
    (ms : List (Match F)) :
    normalizeRelevanceScore exp sqrt score metric ms
      = toFixed (relevanceValue exp sqrt score metric ms) 4 := by
  unfold normalizeRelevanceScore relevanceValue temperature
  split_ifs <;> rfl

theorem relevanceValue_other (exp sqrt : F → F) (score : F) (ms : List (Match F)) :
    relevanceValue exp sqrt score "other" ms
      = minMaxNormalize
          (max (validMin (ms.map (fun m => m.score)))
            (min (validMax (ms.map (fun m => m.score))) score))
          (validMin (ms.map (fun m => m.score))) (validMax (ms.map (fun m => m.score))) := by
  simp [relevanceValue]

theorem other_at_or_above_upper (exp sqrt : F → F) (score : F) (ms : List (Match F))
    (hne : ms ≠ []) (h : validMax (ms.map (fun m => m.score)) ≤ score) :
    relevanceValue exp sqrt score "other" ms = 1 := by
  have hle := validMin_le_validMax (ms.map (fun m => m.score)) (by simpa using hne)
  rw [relevanceValue_other, min_eq_left h, max_eq_right hle]
  unfold minMaxNormalize
  split_ifs with heq
  · rfl
  · exact div_self (sub_ne_zero.mpr heq)

theorem other_at_or_below_lower (exp sqrt : F → F) (score : F) (ms : List (Match F))
    (hne : ms ≠ []) (hwidth : validMax (ms.map (fun m => m.score)) ≠ validMin (ms.map (fun m => m.score)))
    (h : score ≤ validMin (ms.map (fun m => m.score))) :
    relevanceValue exp sqrt score "other" ms = 0 := by
  have hle := validMin_le_validMax (ms.map (fun m => m.score)) (by simpa using hne)
  rw [relevanceValue_other, min_eq_right (h.trans hle), max_eq_left h]
  unfold minMaxNormalize
  rw [if_neg hwidth]
  simp

theorem other_zero_width (exp sqrt : F → F) (score : F) (ms : List (Match F))
    (hwidth : validMax (ms.map (fun m => m.score)) = validMin (ms.map (fun m => m.score))) :
    relevanceValue exp sqrt score "other" ms = 1 := by
  rw [relevanceValue_other]
  unfold minMaxNormalize
  rw [if_pos hwidth]

theorem quartiles_of_constant (scores : List F) (c : F) (hne : scores ≠ [])
    (hall : ∀ x ∈ scores, x = c) : q1 scores = c ∧ q3 scores = c :=
  ⟨hall _ (q1_mem scores hne), hall _ (q3_mem scores hne)⟩

theorem fences_of_constant (scores : List F) (c : F) (hne : scores ≠ [])
    (hall : ∀ x ∈ scores, x = c) :
    iqr scores = 0 ∧ validMin scores = c ∧ validMax scores = c := by
  obtain ⟨h1, h3⟩ := quartiles_of_constant scores c hne hall
  simp [iqr, validMin, validMax, h1, h3]

theorem render_zero4 : ({ neg := false, n := 0, f := 4 } : Fixed).render = "0.0000" := by
  decide

theorem render_one4 : ({ neg := false, n := 10 ^ 4, f := 4 } : Fixed).render = "1.0000" := by
  decide

end Other

/-- C10: on a non-empty MatchSet of size `n` the sorted score list is an ascending
rearrangement of the scores, the quartile indices of the `other` branch are `n / 4` and
`3 * n / 4` rounded down, both positions of that list, the first no larger than the second,
the quartiles they read satisfy `Q1 ≤ Q3`, `IQR ≥ 0` and lower fence ≤ upper fence, and no
division of `normalizeRelevanceScore` has a zero divisor: the count in `calculateStats`, the
substituted standard deviation and its doubled square, and the fence width whenever
`minMaxNormalize` divides by it. -/
theorem normalize_never_fails (ms : List (Match ℝ)) (hne : ms ≠ []) :
    let scores := ms.map (fun m => m.score)
    let n := (sortedScores scores).length
    n = ms.length
    ∧ (sortedScores scores).Sorted (fun a b => a ≤ b)
    ∧ (sortedScores scores).Perm scores
    ∧ q1Index ℝ n = n / 4 ∧ q3Index ℝ n = 3 * n / 4
    ∧ q1Index ℝ n < n ∧ q3Index ℝ n < n ∧ q1Index ℝ n ≤ q3Index ℝ n
    ∧ (sortedScores scores).get? (q1Index ℝ n) = some (q1 scores)
    ∧ (sortedScores scores).get? (q3Index ℝ n) = some (q3 scores)
    ∧ q1 scores ≤ q3 scores ∧ 0 ≤ iqr scores ∧ validMin scores ≤ validMax scores
    ∧ (scores.length : ℝ) ≠ 0
    ∧ orOne (calculateStats Real.sqrt scores).stdDev ≠ 0
    ∧ 2 * (orOne (calculateStats Real.sqrt scores).stdDev) ^ 2 ≠ 0
    ∧ temperature Real.sqrt scores ≠ 0
    ∧ (validMax scores ≠ validMin scores → validMax scores - validMin scores ≠ 0) := by
  intro scores n
  have hsne : scores ≠ [] := by simpa [scores] using hne
  have hlen : n = ms.length := by simp [n, scores, length_sortedScores]
  have hpos : 0 < n := by rw [hlen]; exact List.length_pos.mpr hne
  have hq := q1_le_q3 scores hsne
  have h1 : q1Index ℝ n < n := by rw [q1Index_eq]; omega
  have h3 : q3Index ℝ n < n := by rw [q3Index_eq]; omega
  have hor := orOne_ne_zero (calculateStats Real.sqrt scores).stdDev
  refine ⟨hlen, sorted_sortedScores scores, List.perm_insertionSort _ scores,
    q1Index_eq n, q3Index_eq n, h1, h3, ?_, ?_, ?_, hq, ?_,
    validMin_le_validMax scores hsne, ?_, hor, ?_, hor, ?_⟩
  · rw [q1Index_eq, q3Index_eq]; omega
  · exact get?_eq_some_getD _ _ 0 h1
  · exact get?_eq_some_getD _ _ 0 h3
  · unfold iqr; linarith
  · have : 0 < scores.length := List.length_pos.mpr hsne
    exact_mod_cast this.ne'
  · exact mul_ne_zero two_ne_zero (pow_ne_zero 2 hor)
  · intro h; exact sub_ne_zero.mpr h

/-- Witness for C10 on the MatchSet with raw scores 1, 2, 3, 4. -/
theorem normalize_never_fails_witness :
    let ms : List (Match ℝ) := [⟨1, []⟩, ⟨2, []⟩, ⟨3, []⟩, ⟨4, []⟩]
    let scores := ms.map (fun m => m.score)
    let n := (sortedScores scores).length
    ms ≠ []
    ∧ (n = ms.length
    ∧ (sortedScores scores).Sorted (fun a b => a ≤ b)
    ∧ (sortedScores scores).Perm scores
    ∧ q1Index ℝ n = n / 4 ∧ q3Index ℝ n = 3 * n / 4
    ∧ q1Index ℝ n < n ∧ q3Index ℝ n < n ∧ q1Index ℝ n ≤ q3Index ℝ n
    ∧ (sortedScores scores).get? (q1Index ℝ n) = some (q1 scores)
    ∧ (sortedScores scores).get? (q3Index ℝ n) = some (q3 scores)
    ∧ q1 scores ≤ q3 scores ∧ 0 ≤ iqr scores ∧ validMin scores ≤ validMax scores
    ∧ (scores.length : ℝ) ≠ 0
    ∧ orOne (calculateStats Real.sqrt scores).stdDev ≠ 0
    ∧ 2 * (orOne (calculateStats Real.sqrt scores).stdDev) ^ 2 ≠ 0
    ∧ temperature Real.sqrt scores ≠ 0
    ∧ (validMax scores ≠ validMin scores → validMax scores - validMin scores ≠ 0)) :=
  ⟨by simp, normalize_never_fails [⟨1, []⟩, ⟨2, []⟩, ⟨3, []⟩, ⟨4, []⟩] (by simp)⟩

/-- C6: for metric `other` on a non-empty MatchSet whose raw scores all equal `c`, the
interquartile range is 0, both fences equal `c`, and every input score, in the set or not,
is normalised to the numeral `1.0000`. -/
theorem other_identical_scores (ms : List (Match ℝ)) (c : ℝ) (hne : ms ≠ [])
    (hall : ∀ m ∈ ms, m.score = c) :
    iqr (ms.map (fun m => m.score)) = 0
    ∧ validMin (ms.map (fun m => m.score)) = c
    ∧ validMax (ms.map (fun m => m.score)) = c
    ∧ ∀ score : ℝ,
        relevanceValue Real.exp Real.sqrt score "other" ms = 1
        ∧ (normalizeRelevanceScore Real.exp Real.sqrt score "other" ms).render = "1.0000" := by
  have hsne : ms.map (fun m => m.score) ≠ [] := by simpa using hne
  have hall' : ∀ x ∈ ms.map (fun m => m.score), x = c := by
    intro x hx
    obtain ⟨m, hm, rfl⟩ := List.mem_map.mp hx
    exact hall m hm
  obtain ⟨hi, hlo, hhi⟩ := fences_of_constant _ c hsne hall'
  refine ⟨hi, hlo, hhi, fun score => ?_⟩
  have hv := other_zero_width Real.exp Real.sqrt score ms (by rw [hlo, hhi])
  refine ⟨hv, ?_⟩
  rw [normalize_eq_toFixed, hv, toFixed_one]
  exact render_one4

/-- Witness for C6 on two matches of raw score 5. -/
theorem other_identical_scores_witness :
    let ms : List (Match ℝ) := [⟨5, []⟩, ⟨5, []⟩]
    ms ≠ [] ∧ (∀ m ∈ ms, m.score = 5)
    ∧ (iqr (ms.map (fun m => m.score)) = 0
    ∧ validMin (ms.map (fun m => m.score)) = 5
    ∧ validMax (ms.map (fun m => m.score)) = 5
    ∧ ∀ score : ℝ,
        relevanceValue Real.exp Real.sqrt score "other" ms = 1
        ∧ (normalizeRelevanceScore Real.exp Real.sqrt score "other" ms).render = "1.0000") :=
  ⟨by simp, by simp, other_identical_scores [⟨5, []⟩, ⟨5, []⟩] 5 (by simp) (by simp)⟩

theorem sortedScores_one_to_four :
    sortedScores (List.map (fun m => m.score)
      [(⟨1, []⟩ : Match ℝ), ⟨2, []⟩, ⟨3, []⟩, ⟨4, []⟩]) = [1, 2, 3, 4] := by
  have h : List.Sorted (fun a b : ℝ => a ≤ b) [1, 2, 3, 4] := by
    simp [List.Sorted]
    norm_num
  simpa [sortedScores] using h.insertionSort_eq

/-- C3, as stated, fails: on the MatchSet with the single raw score 5 both fences are 5, the
score 5 lies exactly at the lower fence and is normalised to `1.0000`, not `0.0000`, and the
score 4 below the lower fence is normalised to 1, not 0. -/
theorem other_lower_fence_counterexample :
    validMin (List.map (fun m => m.score) [(⟨5, []⟩ : Match ℝ)]) = 5
    ∧ (normalizeRelevanceScore Real.exp Real.sqrt 5 "other" [⟨5, []⟩]).render = "1.0000"
    ∧ (normalizeRelevanceScore Real.exp Real.sqrt 5 "other" [⟨5, []⟩]).render ≠ "0.0000"
    ∧ (4 : ℝ) < validMin (List.map (fun m => m.score) [(⟨5, []⟩ : Match ℝ)])
    ∧ relevanceValue Real.exp Real.sqrt 4 "other" [⟨5, []⟩] = 1
    ∧ relevanceValue Real.exp Real.sqrt 4 "other" [⟨5, []⟩] ≠ 0 := by
  obtain ⟨_, hlo, hhi⟩ :=
    fences_of_constant (List.map (fun m => m.score) [(⟨5, []⟩ : Match ℝ)]) 5 (by simp) (by simp)
  have hw : validMax (List.map (fun m => m.score) [(⟨5, []⟩ : Match ℝ)])
      = validMin (List.map (fun m => m.score) [(⟨5, []⟩ : Match ℝ)]) := by rw [hlo, hhi]
  have h5 := other_zero_width Real.exp Real.sqrt 5 [(⟨5, []⟩ : Match ℝ)] hw
  have h4 := other_zero_width Real.exp Real.sqrt 4 [(⟨5, []⟩ : Match ℝ)] hw
  have hr : (normalizeRelevanceScore Real.exp Real.sqrt 5 "other" [⟨5, []⟩]).render = "1.0000" := by
    rw [normalize_eq_toFixed, h5, toFixed_one]
    exact render_one4
  refine ⟨hlo, hr, ?_, ?_, h4, ?_⟩
  · rw [hr]; decide
  · rw [hlo]; norm_num
  · rw [h4]; exact one_ne_zero

/-- C3, amended: for metric `other` on a non-empty MatchSet of size `n`, with `Q1` and `Q3`
the elements at positions `n / 4` and `3 * n / 4` (rounded down) of the ascending-sorted
scores, the fences of the code are `Q1 - 1.5 * (Q3 - Q1)` and `Q3 + 1.5 * (Q3 - Q1)`; every
score at or above the upper fence is normalised to 1, numeral `1.0000`; when the fence has
non-zero width (`Q1 ≠ Q3`) every score at or below the lower fence is normalised to 0,
numeral `0.0000`; and when it has zero width (`Q1 = Q3`) every score is normalised to 1,
numeral `1.0000`. -/
theorem other_fence_clamp (ms : List (Match ℝ)) (score Q1 Q3 : ℝ) (hne : ms ≠ [])
    (hQ1 : (sortedScores (ms.map (fun m => m.score))).get? (ms.length / 4) = some Q1)
    (hQ3 : (sortedScores (ms.map (fun m => m.score))).get? (3 * ms.length / 4) = some Q3) :
    validMin (ms.map (fun m => m.score)) = Q1 - 1.5 * (Q3 - Q1)
    ∧ validMax (ms.map (fun m => m.score)) = Q3 + 1.5 * (Q3 - Q1)
    ∧ (Q3 + 1.5 * (Q3 - Q1) ≤ score →
        relevanceValue Real.exp Real.sqrt score "other" ms = 1
        ∧ (normalizeRelevanceScore Real.exp Real.sqrt score "other" ms).render = "1.0000")
    ∧ (Q1 ≠ Q3 → score ≤ Q1 - 1.5 * (Q3 - Q1) →
        relevanceValue Real.exp Real.sqrt score "other" ms = 0
        ∧ (normalizeRelevanceScore Real.exp Real.sqrt score "other" ms).render = "0.0000")
    ∧ (Q1 = Q3 →
        relevanceValue Real.exp Real.sqrt score "other" ms = 1
        ∧ (normalizeRelevanceScore Real.exp Real.sqrt score "other" ms).render = "1.0000") := by
  have hsne : ms.map (fun m => m.score) ≠ [] := by simpa using hne
  have hpos : 0 < ms.length := List.length_pos.mpr hne
  have hlen : (sortedScores (ms.map (fun m => m.score))).length = ms.length := by
    simp [length_sortedScores]
  have h1 : q1 (ms.map (fun m => m.score)) = Q1 := by
    have hi : ms.length / 4 < (sortedScores (ms.map (fun m => m.score))).length := by
      rw [hlen]; omega
    have h := get?_eq_some_getD (sortedScores (ms.map (fun m => m.score))) _ 0 hi
    rw [hQ1] at h
    unfold q1
    rw [q1Index_eq, hlen]
    exact (Option.some.inj h).symm
  have h3 : q3 (ms.map (fun m => m.score)) = Q3 := by
    have hi : 3 * ms.length / 4 < (sortedScores (ms.map (fun m => m.score))).length := by
      rw [hlen]; omega
    have h := get?_eq_some_getD (sortedScores (ms.map (fun m => m.score))) _ 0 hi
    rw [hQ3] at h
    unfold q3
    rw [q3Index_eq, hlen]
    exact (Option.some.inj h).symm
  have hlo : validMin (ms.map (fun m => m.score)) = Q1 - 1.5 * (Q3 - Q1) := by
    simp [validMin, iqr, h1, h3]
  have hhi : validMax (ms.map (fun m => m.score)) = Q3 + 1.5 * (Q3 - Q1) := by
    simp [validMax, iqr, h1, h3]
  refine ⟨hlo, hhi, ?_, ?_, ?_⟩
  · intro hs
    have hv := other_at_or_above_upper Real.exp Real.sqrt score ms hne (by rw [hhi]; exact hs)
    refine ⟨hv, ?_⟩
    rw [normalize_eq_toFixed, hv, toFixed_one]
    exact render_one4
  · intro hq hs
    have hwidth : validMax (ms.map (fun m => m.score)) ≠ validMin (ms.map (fun m => m.score)) := by
      intro h
      have h4 := validMax_sub_validMin (ms.map (fun m => m.score))
      rw [h, sub_self, h1, h3] at h4
      have : Q3 - Q1 = 0 := by linarith
      exact hq (by linarith)
    have hv := other_at_or_below_lower Real.exp Real.sqrt score ms hne hwidth
      (by rw [hlo]; exact hs)
    refine ⟨hv, ?_⟩
    rw [normalize_eq_toFixed, hv, toFixed_zero]
    exact render_zero4
  · intro hq
    have hv := other_zero_width Real.exp Real.sqrt score ms (by rw [hlo, hhi, hq]; ring)
    refine ⟨hv, ?_⟩
    rw [normalize_eq_toFixed, hv, toFixed_one]
    exact render_one4

/-- Witness for the amended C3 on the MatchSet with raw scores 1, 2, 3, 4, where `Q1 = 2`,
`Q3 = 4` and the fences are -1 and 7; the score tried is the upper fence 7. -/
theorem other_fence_clamp_witness :
    let ms : List (Match ℝ) := [⟨1, []⟩, ⟨2, []⟩, ⟨3, []⟩, ⟨4, []⟩]
    ms ≠ []
    ∧ (sortedScores (ms.map (fun m => m.score))).get? (ms.length / 4) = some 2
    ∧ (sortedScores (ms.map (fun m => m.score))).get? (3 * ms.length / 4) = some 4
    ∧ (validMin (ms.map (fun m => m.score)) = 2 - 1.5 * (4 - 2)
    ∧ validMax (ms.map (fun m => m.score)) = 4 + 1.5 * (4 - 2)
    ∧ (4 + 1.5 * (4 - 2) ≤ (7 : ℝ) →
        relevanceValue Real.exp Real.sqrt 7 "other" ms = 1
        ∧ (normalizeRelevanceScore Real.exp Real.sqrt 7 "other" ms).render = "1.0000")
    ∧ ((2 : ℝ) ≠ 4 → (7 : ℝ) ≤ 2 - 1.5 * (4 - 2) →
        relevanceValue Real.exp Real.sqrt 7 "other" ms = 0
        ∧ (normalizeRelevanceScore Real.exp Real.sqrt 7 "other" ms).render = "0.0000")
    ∧ ((2 : ℝ) = 4 →
        relevanceValue Real.exp Real.sqrt 7 "other" ms = 1
        ∧ (normalizeRelevanceScore Real.exp Real.sqrt 7 "other" ms).render = "1.0000")) :=
  ⟨by simp,
   by rw [sortedScores_one_to_four]; rfl,
   by rw [sortedScores_one_to_four]; rfl,
   other_fence_clamp [⟨1, []⟩, ⟨2, []⟩, ⟨3, []⟩, ⟨4, []⟩] 7 2 4 (by simp)
     (by rw [sortedScores_one_to_four]; rfl)
     (by rw [sortedScores_one_to_four]; rfl)⟩

/-! ## The branches `cosine`, `euclidean` and `dotproduct` -/

theorem relevanceValue_cosine {F : Type} [LinearOrderedField F] [FloorRing F]
    (exp sqrt : F → F) (score : F) (ms : List (Match F)) :
    relevanceValue exp sqrt score "cosine" ms = ((1 + score) / 2) ^ 2 := by
  simp [relevanceValue]

theorem relevanceValue_euclidean {F : Type} [LinearOrderedField F] [FloorRing F]
    (exp sqrt : F → F) (score : F) (ms : List (Match F)) :
    relevanceValue exp sqrt score "euclidean" ms
      = 1 - exp (-(score - specMean (ms.map (fun m => m.score))) ^ 2
          / (2 * (orOne (calculateStats sqrt (ms.map (fun m => m.score))).stdDev) ^ 2)) := by
  simp [relevanceValue, calculateStats_mean]

theorem relevanceValue_dotproduct {F : Type} [LinearOrderedField F] [FloorRing F]
    (exp sqrt : F → F) (score : F) (ms : List (Match F)) :
    relevanceValue exp sqrt score "dotproduct" ms
      = 1 / (1 + exp (-2 * ((score - specMean (ms.map (fun m => m.score)))
          / temperature sqrt (ms.map (fun m => m.score))))) := by
  simp [relevanceValue, calculateStats_mean]

theorem toFixed_half4 : toFixed ((1 : ℝ) / 2) 4 = { neg := false, n := 5000, f := 4 } := by
  rw [toFixed_of_nonneg _ _ (by norm_num)]
  have h : Nat.floor ((1 : ℝ) / 2 * 10 ^ 4 + 1 / 2) = 5000 := by
    rw [Nat.floor_eq_iff (by norm_num)]
    constructor <;> norm_num
  rw [h]

/-! ## The range of the relevance value -/

theorem minMaxNormalize_mem_unit {F : Type} [LinearOrderedField F] (x lo hi : F)
    (hlo : lo ≤ x) (hhi : x ≤ hi) :
    0 ≤ minMaxNormalize x lo hi ∧ minMaxNormalize x lo hi ≤ 1 := by
  unfold minMaxNormalize
  split_ifs with h
  · exact ⟨zero_le_one, le_rfl⟩
  · have hlt : lo < hi := lt_of_le_of_ne (hlo.trans hhi) (Ne.symm h)
    have hpos : 0 < hi - lo := sub_pos.mpr hlt
    constructor
    · exact div_nonneg (sub_nonneg.mpr hlo) hpos.le
    · rw [div_le_one hpos]; linarith

theorem cosine_mem_unit (s : ℝ) (h1 : -1 ≤ s) (h2 : s ≤ 1) :
    0 ≤ ((1 + s) / 2) ^ 2 ∧ ((1 + s) / 2) ^ 2 ≤ 1 := by
  constructor
  · positivity
  · have ha : 0 ≤ (1 + s) / 2 := by linarith
    have hb : (1 + s) / 2 ≤ 1 := by linarith
    exact pow_le_one₀ ha hb

theorem gaussian_mem_unit (d v : ℝ) :
    0 ≤ 1 - Real.exp (-d ^ 2 / (2 * v ^ 2)) ∧ 1 - Real.exp (-d ^ 2 / (2 * v ^ 2)) ≤ 1 := by
  have hx : -d ^ 2 / (2 * v ^ 2) ≤ 0 :=
    div_nonpos_of_nonpos_of_nonneg (by nlinarith [sq_nonneg d]) (by positivity)
  have h1 : Real.exp (-d ^ 2 / (2 * v ^ 2)) ≤ 1 := Real.exp_le_one_iff.mpr hx
  have h0 := Real.exp_pos (-d ^ 2 / (2 * v ^ 2))
  constructor <;> linarith

theorem sigmoid_mem_unit (x : ℝ) :
    0 ≤ 1 / (1 + Real.exp x) ∧ 1 / (1 + Real.exp x) ≤ 1 := by
  have h0 := Real.exp_pos x
  constructor
  · positivity
  · rw [div_le_one (by linarith)]; linarith

/-- C1, as stated, fails: for metric `cosine` and the MatchSet with the single raw score 3,
the score 3 of that set gets the relevance value 4, numeral `4.0000`, which is above 1. -/
theorem relevance_above_one_counterexample :
    (⟨3, []⟩ : Match ℝ) ∈ [(⟨3, []⟩ : Match ℝ)]
    ∧ relevanceValue Real.exp Real.sqrt 3 "cosine" [⟨3, []⟩] = 4
    ∧ (normalizeRelevanceScore Real.exp Real.sqrt 3 "cosine" [⟨3, []⟩]).render = "4.0000"
    ∧ ¬ (relevanceValue Real.exp Real.sqrt 3 "cosine" [⟨3, []⟩] ≤ 1) := by
  have hv : relevanceValue Real.exp Real.sqrt 3 "cosine" [⟨3, []⟩] = 4 := by
    rw [relevanceValue_cosine]; norm_num
  refine ⟨by simp, hv, ?_, ?_⟩
  · rw [normalize_eq_toFixed, hv, toFixed_of_nonneg _ _ (by norm_num)]
    have h : Nat.floor ((4 : ℝ) * 10 ^ 4 + 1 / 2) = 40000 := by
      rw [Nat.floor_eq_iff (by norm_num)]
      constructor <;> norm_num
    rw [h]
    decide
  · rw [hv]; norm_num

/-- C1, amended: for each of the metric tags `euclidean`, `dotproduct` and `other`, and for
`cosine` when the score lies in [-1, 1], for every non-empty MatchSet and every score the
number that `normalizeRelevanceScore` formats to 4 decimals lies in [0, 1], and so does the
value of the formatted numeral. -/
theorem relevance_in_unit_interval (metric : String) (ms : List (Match ℝ)) (score : ℝ)
    (hne : ms ≠ [])
    (hmetric : metric = "cosine" ∨ metric = "euclidean" ∨ metric = "dotproduct"
      ∨ metric = "other")
    (hcos : metric = "cosine" → -1 ≤ score ∧ score ≤ 1) :
    normalizeRelevanceScore Real.exp Real.sqrt score metric ms
      = toFixed (relevanceValue Real.exp Real.sqrt score metric ms) 4
    ∧ 0 ≤ relevanceValue Real.exp Real.sqrt score metric ms
    ∧ relevanceValue Real.exp Real.sqrt score metric ms ≤ 1
    ∧ (0 : ℝ) ≤ (normalizeRelevanceScore Real.exp Real.sqrt score metric ms).value
    ∧ (normalizeRelevanceScore Real.exp Real.sqrt score metric ms).value ≤ (1 : ℝ) := by
  have hv : 0 ≤ relevanceValue Real.exp Real.sqrt score metric ms
      ∧ relevanceValue Real.exp Real.sqrt score metric ms ≤ 1 := by
    rcases hmetric with h | h | h | h
    · obtain ⟨h1, h2⟩ := hcos h
      subst h
      rw [relevanceValue_cosine]
      exact cosine_mem_unit score h1 h2
    · subst h
      rw [relevanceValue_euclidean]
      exact gaussian_mem_unit _ _
    · subst h
      rw [relevanceValue_dotproduct]
      exact sigmoid_mem_unit _
    · subst h
      rw [relevanceValue_other]
      have hle := validMin_le_validMax (ms.map (fun m => m.score)) (by simpa using hne)
      exact minMaxNormalize_mem_unit _ _ _ (le_max_left _ _)
        (max_le hle (min_le_left _ _))
  refine ⟨normalize_eq_toFixed _ _ _ _ _, hv.1, hv.2, ?_, ?_⟩
  · rw [normalize_eq_toFixed]; exact toFixed_value_nonneg _ _ hv.1
  · rw [normalize_eq_toFixed]; exact toFixed_value_le_one _ _ hv.1 hv.2

/-- Witness for the amended C1: metric `other`, raw scores 1, 2, 3, 4, score 3. -/
theorem relevance_in_unit_interval_witness :
    let ms : List (Match ℝ) := [⟨1, []⟩, ⟨2, []⟩, ⟨3, []⟩, ⟨4, []⟩]
    ms ≠ []
    ∧ (normalizeRelevanceScore Real.exp Real.sqrt 3 "other" ms
      = toFixed (relevanceValue Real.exp Real.sqrt 3 "other" ms) 4
    ∧ 0 ≤ relevanceValue Real.exp Real.sqrt 3 "other" ms
    ∧ relevanceValue Real.exp Real.sqrt 3 "other" ms ≤ 1
    ∧ (0 : ℝ) ≤ (normalizeRelevanceScore Real.exp Real.sqrt 3 "other" ms).value
    ∧ (normalizeRelevanceScore Real.exp Real.sqrt 3 "other" ms).value ≤ (1 : ℝ)) :=
  ⟨by simp,
   relevance_in_unit_interval "other" [⟨1, []⟩, ⟨2, []⟩, ⟨3, []⟩, ⟨4, []⟩] 3 (by simp)
     (Or.inr (Or.inr (Or.inr rfl))) (fun h => absurd h (by decide))⟩

/-! ## Metadata filtering -/

theorem getProp_nil (field : String) : getProp [] field = none := rfl

theorem getProp_cons (k : String) (v : JsValue) (o : Metadata) (field : String) :
    getProp ((k, v) :: o) field = if field = k then some v else getProp o field := by
  unfold getProp
  rw [List.lookup_cons]
  by_cases h : field = k
  · simp [h]
  · have hne : (field == k) = false := by simpa using h
    simp [h, hne]

theorem getProp_map_replace (o : Metadata) (k : String) (v : JsValue) (field : String) :
    getProp (o.map (fun e => if e.1 = k then (k, v) else e)) field
      = if field = k then (if o.any (fun e => e.1 = k) then some v else none)
        else getProp o field := by
  induction o with
  | nil => simp [getProp_nil]
  | cons e rest ih =>
    obtain ⟨ek, ev⟩ := e
    by_cases hek : ek = k
    · simp only [List.map_cons, hek, if_true, getProp_cons, ih, List.any_cons, decide_True,
        Bool.true_or]
      split_ifs <;> rfl
    · simp only [List.map_cons, hek, if_false, getProp_cons, ih, List.any_cons, decide_False,
        Bool.false_or]
      by_cases hf : field = k
      · have hfe : ¬ field = ek := fun h => hek (h.symm.trans hf)
        simp [hf, hfe, hf ▸ hfe]
      · simp [hf]

theorem getProp_append_single (o : Metadata) (k : String) (v : JsValue) (field : String)
    (hk : o.any (fun e => e.1 = k) = false) :
    getProp (o ++ [(k, v)]) field = if field = k then some v else getProp o field := by
  induction o with
  | nil => simp [getProp_cons, getProp_nil]
  | cons e rest ih =>
    obtain ⟨ek, ev⟩ := e
    have hk' : ¬ ek = k ∧ rest.any (fun e => e.1 = k) = false := by
      simpa [List.any_cons] using hk
    simp only [List.cons_append, getProp_cons, ih hk'.2]
    by_cases hfe : field = ek
    · have hfk : ¬ field = k := fun h => hk'.1 (hfe.symm.trans h)
      simp [hfe, hfe ▸ hfk]
    · simp [hfe]

theorem getProp_setProp (o : Metadata) (k : String) (v : JsValue) (field : String) :
    getProp (setProp o k v) field = if field = k then some v else getProp o field := by
  unfold setProp
  by_cases h : o.any (fun e => e.1 = k) = true
  · rw [if_pos h, getProp_map_replace, if_pos h]
  · rw [if_neg h]
    exact getProp_append_single o k v field (Bool.eq_false_iff.mpr h)

theorem getProp_foldl_setProp (value : String → JsValue) (fs : List String) (acc : Metadata)
    (field : String) :
    getProp ((fs.map (fun f => (f, value f))).foldl (fun o e => setProp o e.1 e.2) acc) field
      = if field ∈ fs then some (value field) else getProp acc field := by
  induction fs generalizing acc with
  | nil => simp
  | cons f rest ih =>
    simp only [List.map_cons, List.foldl_cons, ih, getProp_setProp, List.mem_cons]
    by_cases h1 : field ∈ rest
    · simp [h1]
    · by_cases h2 : field = f
      · subst h2; simp
      · simp [h1, h2]

/-- What the filter does on every record and every allowlist: the output has exactly the
allowlisted keys, and each maps to `metadata[field] || null`. -/
theorem getProp_selectMetadata (fs : List String) (metadata : Metadata) (field : String) :
    getProp (selectMetadata (some fs) metadata) field
      = if field ∈ fs then some (orNull (getProp metadata field)) else none := by
  unfold selectMetadata fromEntries
  rw [getProp_foldl_setProp (fun f => orNull (getProp metadata f))]
  simp [getProp]

/-- C7, evaluated where the code departs from it: with `metadataFields = "a,b"` the record
`{a: 0, b: 2, c: 3}`, which has the field `a` with value 0, is filtered to
`{a: null, b: 2}`; the two records of the specification's example come out as stated, and
without `metadataFields` the record is returned unchanged. -/
theorem metadata_filter_drops_falsy_value :
    parseFields (some "a,b") = some ["a", "b"]
    ∧ getProp [("a", JsValue.num 0), ("b", JsValue.num 2), ("c", JsValue.num 3)] "a"
        = some (JsValue.num 0)
    ∧ selectMetadata (parseFields (some "a,b"))
        [("a", JsValue.num 0), ("b", JsValue.num 2), ("c", JsValue.num 3)]
        = [("a", JsValue.null), ("b", JsValue.num 2)]
    ∧ selectMetadata (parseFields (some "a,b"))
        [("a", JsValue.num 1), ("b", JsValue.num 2), ("c", JsValue.num 3)]
        = [("a", JsValue.num 1), ("b", JsValue.num 2)]
    ∧ selectMetadata (parseFields (some "a,b")) [("a", JsValue.num 1), ("c", JsValue.num 3)]
        = [("a", JsValue.num 1), ("b", JsValue.null)]
    ∧ selectMetadata (parseFields none)
        [("a", JsValue.num 0), ("b", JsValue.num 2), ("c", JsValue.num 3)]
        = [("a", JsValue.num 0), ("b", JsValue.num 2), ("c", JsValue.num 3)] := by
  refine ⟨by decide, by decide, by decide, by decide, by decide, by decide⟩

/-! ## The query entry point -/

theorem orDefault_enableRerank_ne (enableRerank : Option String)
    (h : enableRerank ≠ some "true") : orDefault enableRerank "false" ≠ "true" := by
  unfold orDefault
  cases enableRerank with
  | none => decide
  | some v =>
    show (if v = "" then "false" else v) ≠ "true"
    by_cases hv : v = ""
    · rw [if_pos hv]; decide
    · rw [if_neg hv]
      intro hvt
      exact h (by rw [hvt])

theorem mapM_lookup_ok {F : Type} [LinearOrderedField F] [FloorRing F]
    (fields : Option (List String)) (ms : List (Match F)) (rs : List (RerankResult F))
    (hidx : ∀ r ∈ rs, r.index < ms.length) :
    ∃ records : List RelevanceResult,
      rs.mapM (fun result =>
          match ms.get? result.index with
          | some m =>
            (Except.ok { relevance := toFixed result.relevance_score 2,
                         metadata := selectMetadata fields m.metadata } :
              Except String RelevanceResult)
          | none => Except.error "Cannot read properties of undefined (reading 'metadata')")
        = Except.ok records
      ∧ List.Forall₂ (fun (r : RerankResult F) (record : RelevanceResult) =>
          ∃ m, ms.get? r.index = some m
            ∧ record = { relevance := toFixed r.relevance_score 2,
                         metadata := selectMetadata fields m.metadata }) rs records := by
  induction rs with
  | nil => exact ⟨[], by rw [List.mapM_nil]; rfl, List.Forall₂.nil⟩
  | cons r rest ih =>
    obtain ⟨records, hrec, hall⟩ := ih (fun x hx => hidx x (List.mem_cons_of_mem _ hx))
    have hr : r.index < ms.length := hidx r (List.mem_cons_self _ _)
    have hget : ms.get? r.index = some (ms.get ⟨r.index, hr⟩) := List.get?_eq_get hr
    refine ⟨{ relevance := toFixed r.relevance_score 2,
              metadata := selectMetadata fields (ms.get ⟨r.index, hr⟩).metadata } :: records,
      ?_, List.Forall₂.cons ⟨_, hget, rfl⟩ hall⟩
    rw [List.mapM_cons, hrec, hget]
    rfl

/-- C8, evaluated where the code departs from it: after a successful embedding and a
successful search whose match list is empty, with reranking off, the query returns the empty
list of records and not the string; the string is returned when the match list is absent. -/
theorem empty_match_list_returns_empty_list :
    query_pinecone_database Real.exp Real.sqrt
        { enableRerank := none, similarityMetric := none, metadataFields := none }
        { openai := .success { data := some [{ embedding := some [1] }] },
          pinecone := .success (some { «matches» := some [] }),
          cohere := .failure 0 "" }
      = .ok (QueryOutput.results [])
    ∧ (QueryOutput.results [] ≠ QueryOutput.text "No matching results found in Pinecone.")
    ∧ query_pinecone_database Real.exp Real.sqrt
        { enableRerank := none, similarityMetric := none, metadataFields := none }
        { openai := .success { data := some [{ embedding := some [1] }] },
          pinecone := .success (some { «matches» := none }),
          cohere := .failure 0 "" }
      = .ok (QueryOutput.text "No matching results found in Pinecone.") := by
  refine ⟨?_, by decide, ?_⟩
  · simp [query_pinecone_database, vectorizeQuery, rethrow, orDefault]
  · simp [query_pinecone_database, vectorizeQuery, rethrow, orDefault]

/-- C9: after a successful embedding and a search that returns the matches `ms`: when
`enableRerank` is the string `"true"` and the rerank response lists results whose indices
are positions of `ms` (and whose scores are below `10^21` in magnitude, where `toFixed`
prints digits), the output is one record per rerank result, in order, whose relevance is
that result's `relevance_score` formatted by `toFixed(2)`, a numeral with exactly 2 digits
after the point, and whose metadata is the (filtered) metadata of the match at the result's
index, the same whatever the metric setting and the functions used by the normaliser; when
`enableRerank` is anything else, the output is one record per match with the relevance
`normalizeRelevanceScore` gives, the same whatever the rerank response. -/
theorem rerank_and_normalize_exclusive (settings : UserSettings) (responses : Responses ℝ)
    (embedding : List ℝ) (ms : List (Match ℝ))
    (hembed : vectorizeQuery responses.openai = .ok embedding)
    (hsearch : responses.pinecone = .success (some { «matches» := some ms })) :
    (settings.enableRerank = some "true" →
      ∀ rs : List (RerankResult ℝ),
        responses.cohere = .success (some { results := some rs }) →
        (∀ r ∈ rs, r.index < ms.length) →
        (∀ r ∈ rs, |r.relevance_score| < 10 ^ 21) →
        ∃ records : List RelevanceResult,
          (∀ (exp sqrt : ℝ → ℝ) (metric : Option String),
            query_pinecone_database exp sqrt
                { settings with similarityMetric := metric } responses
              = .ok (QueryOutput.results records))
          ∧ List.Forall₂ (fun (r : RerankResult ℝ) (record : RelevanceResult) =>
              ∃ m, ms.get? r.index = some m
                ∧ record.relevance = toFixed r.relevance_score 2
                ∧ (∃ a b : List Char,
                    record.relevance.render
                      = (if record.relevance.neg then "-" else "") ++ String.mk a ++ "."
                          ++ String.mk b
                    ∧ b.length = 2)
                ∧ record.metadata
                    = selectMetadata (parseFields settings.metadataFields) m.metadata)
              rs records)
    ∧ (settings.enableRerank ≠ some "true" →
      ∀ cohere : HttpResponse (Option (RerankData ℝ)),
        query_pinecone_database Real.exp Real.sqrt settings { responses with cohere := cohere }
          = .ok (QueryOutput.results (ms.map (fun m =>
              { relevance := normalizeRelevanceScore Real.exp Real.sqrt m.score
                  (orDefault settings.similarityMetric "cosine") ms,
                metadata := selectMetadata (parseFields settings.metadataFields) m.metadata })))) := by
  constructor
  · intro htrue rs hcohere hidx _
    obtain ⟨records, hrec, hall⟩ :=
      mapM_lookup_ok (parseFields settings.metadataFields) ms rs hidx
    refine ⟨records, ?_, ?_⟩
    · intro exp sqrt metric
      simp only [query_pinecone_database, rerankWithCohere, hembed, hsearch, hcohere, htrue,
        orDefault, Option.bind, rethrow]
      simp only [hrec]
      simp
    · refine hall.imp ?_
      rintro r record ⟨m, hm, rfl⟩
      exact ⟨m, hm, rfl,
        render_fraction_length (toFixed r.relevance_score 2) (show (2 : Nat) ≠ 0 by decide),
        rfl⟩
  · intro hne cohere
    have hoff := orDefault_enableRerank_ne settings.enableRerank hne
    simp only [query_pinecone_database, hembed, hsearch, Option.bind, rethrow, if_neg hoff]

/-- Witness for C9: one match of raw score 0.5; with `enableRerank = "true"` and a rerank
response that lists it with relevance score 0.5, and with `enableRerank` unset. -/
theorem rerank_and_normalize_exclusive_witness :
    let ms : List (Match ℝ) := [⟨0.5, [("text", JsValue.str "doc")]⟩]
    let responses : Responses ℝ :=
      { openai := .success { data := some [{ embedding := some [1] }] },
        pinecone := .success (some { «matches» := some ms }),
        cohere := .success (some { results := some [⟨0, 0.5⟩] }) }
    vectorizeQuery responses.openai = .ok [1]
    ∧ responses.pinecone = .success (some { «matches» := some ms })
    ∧ (∃ records : List RelevanceResult,
          (∀ (exp sqrt : ℝ → ℝ) (metric : Option String),
            query_pinecone_database exp sqrt
                { enableRerank := some "true", similarityMetric := metric,
                  metadataFields := none } responses
              = .ok (QueryOutput.results records))
          ∧ List.Forall₂ (fun (r : RerankResult ℝ) (record : RelevanceResult) =>
              ∃ m, ms.get? r.index = some m
                ∧ record.relevance = toFixed r.relevance_score 2
                ∧ (∃ a b : List Char,
                    record.relevance.render
                      = (if record.relevance.neg then "-" else "") ++ String.mk a ++ "."
                          ++ String.mk b
                    ∧ b.length = 2)
                ∧ record.metadata = selectMetadata (parseFields none) m.metadata)
              [⟨0, 0.5⟩] records)
    ∧ (∀ cohere : HttpResponse (Option (RerankData ℝ)),
        query_pinecone_database Real.exp Real.sqrt
            { enableRerank := none, similarityMetric := none, metadataFields := none }
            { responses with cohere := cohere }
          = .ok (QueryOutput.results (ms.map (fun m =>
              { relevance := normalizeRelevanceScore Real.exp Real.sqrt m.score
                  (orDefault none "cosine") ms,
                metadata := selectMetadata (parseFields none) m.metadata })))) :=
  ⟨rfl, rfl,
   (rerank_and_normalize_exclusive
     { enableRerank := some "true", similarityMetric := none, metadataFields := none }
     { openai := .success { data := some [{ embedding := some [1] }] },
       pinecone := .success (some { «matches» := some [⟨0.5, [("text", JsValue.str "doc")]⟩] }),
       cohere := .success (some { results := some [⟨0, 0.5⟩] }) }
     [1] [⟨0.5, [("text", JsValue.str "doc")]⟩] rfl rfl).1 rfl [⟨0, 0.5⟩] rfl
       (by simp) (by simp [abs_lt]; norm_num),
   (rerank_and_normalize_exclusive
     { enableRerank := none, similarityMetric := none, metadataFields := none }
     { openai := .success { data := some [{ embedding := some [1] }] },
       pinecone := .success (some { «matches» := some [⟨0.5, [("text", JsValue.str "doc")]⟩] }),
       cohere := .success (some { results := some [⟨0, 0.5⟩] }) }
     [1] [⟨0.5, [("text", JsValue.str "doc")]⟩] rfl rfl).2 (by decide)⟩

/-! ## Lemmas on binary64 rounding -/

theorem two_zpow_pos {F : Type} [LinearOrderedField F] (e : Int) : (0 : F) < (2 : F) ^ e :=
  zpow_pos (by norm_num) e

theorem intCast_two_pow_mul_zpow {F : Type} [LinearOrderedField F] (n : Nat) (a b : Int)
    (h : (n : Int) + a = b) :
    (((2 : Int) ^ n : Int) : F) * (2 : F) ^ a = (2 : F) ^ b := by
  rw [Int.cast_pow, Int.cast_ofNat, ← zpow_natCast, ← zpow_add₀ (by norm_num), h]

section Rounding

variable {F : Type} [LinearOrderedField F] [FloorRing F]

open Binary64

theorem roundHalfEven_cases (q : F) :
    roundHalfEven q = Int.floor q ∨ roundHalfEven q = Int.floor q + 1 := by
  unfold roundHalfEven
  split_ifs <;> simp

theorem roundHalfEven_intCast (n : Int) : roundHalfEven (n : F) = n := by
  unfold roundHalfEven
  simp

theorem roundHalfEven_of_near (q : F) (n : Int) (h1 : (n : F) - 1 / 2 < q)
    (h2 : q < (n : F) + 1 / 2) : roundHalfEven q = n := by
  unfold roundHalfEven
  rcases le_or_lt (n : F) q with h | h
  · have hf : Int.floor q = n := by
      rw [Int.floor_eq_iff]
      constructor
      · exact h
      · linarith
    rw [hf, if_pos (by linarith)]
  · have hf : Int.floor q = n - 1 := by
      rw [Int.floor_eq_iff]
      push_cast
      constructor <;> linarith
    rw [hf]
    push_cast
    rw [if_neg (by linarith), if_pos (by linarith)]
    ring

theorem roundHalfEven_tie (q : F) (n : Int) (h : q = (n : F) + 1 / 2) :
    roundHalfEven q = if n % 2 = 0 then n else n + 1 := by
  have hf : Int.floor q = n := by
    rw [Int.floor_eq_iff]
    constructor <;> linarith
  unfold roundHalfEven
  rw [hf, if_neg (by rw [h]; simp), if_neg (by rw [h]; simp)]

theorem abs_roundHalfEven_sub_le (q : F) : |(roundHalfEven q : F) - q| ≤ 1 / 2 := by
  have h1 := Int.floor_le q
  have h2 := Int.lt_floor_add_one q
  unfold roundHalfEven
  rw [abs_le]
  split_ifs with ha hb hc
  · constructor <;> linarith
  · push_cast; constructor <;> linarith
  · constructor <;> linarith
  · push_cast; constructor <;> linarith

theorem roundHalfEven_mono {p q : F} (h : p ≤ q) : roundHalfEven p ≤ roundHalfEven q := by
  have hfl : Int.floor p ≤ Int.floor q := Int.floor_mono h
  rcases hfl.lt_or_eq with hlt | heq
  · have hp : roundHalfEven p ≤ Int.floor p + 1 := by
      rcases roundHalfEven_cases p with h1 | h1 <;> omega
    have hq : Int.floor q ≤ roundHalfEven q := by
      rcases roundHalfEven_cases q with h1 | h1 <;> omega
    omega
  · unfold roundHalfEven
    rw [← heq]
    split_ifs with a1 a2 a3 a4 a5 a6 a7 a8 a9 <;> first | omega | (exfalso; linarith)

theorem le_roundHalfEven (q : F) (n : Int) (h : (n : F) ≤ q) : n ≤ roundHalfEven q := by
  have := roundHalfEven_mono h
  rwa [roundHalfEven_intCast] at this

theorem roundHalfEven_le (q : F) (n : Int) (h : q ≤ (n : F)) : roundHalfEven q ≤ n := by
  have := roundHalfEven_mono h
  rwa [roundHalfEven_intCast] at this

theorem log_two_eq (x : F) (e : Int) (hlo : (2 : F) ^ e ≤ x) (hhi : x < (2 : F) ^ (e + 1)) :
    Int.log 2 x = e := by
  have hx : 0 < x := lt_of_lt_of_le (two_zpow_pos e) hlo
  have h1 : e ≤ Int.log 2 x := by
    rw [← Int.zpow_le_iff_le_log (by norm_num) hx]
    simpa using hlo
  have h2 : Int.log 2 x < e + 1 := by
    rw [← Int.lt_zpow_iff_log_lt (by norm_num) hx]
    simpa using hhi
  omega

theorem two_zpow_log_le (x : F) (hx : 0 < x) : (2 : F) ^ Int.log 2 x ≤ x := by
  simpa using Int.zpow_log_le_self (b := 2) (by norm_num) hx

theorem lt_two_zpow_log_succ (x : F) : x < (2 : F) ^ (Int.log 2 x + 1) := by
  simpa using Int.lt_zpow_succ_log_self (b := 2) (by norm_num) x

theorem fl_zero : fl (0 : F) = 0 := by
  simp [fl, roundHalfEven]

theorem fl_of_pos (x : F) (hx : 0 < x) :
    fl x = (roundHalfEven (x / (2 : F) ^ (Int.log 2 x - 52)) : F) * (2 : F) ^ (Int.log 2 x - 52) := by
  unfold fl ulp
  rw [if_neg (not_lt.mpr hx.le), abs_of_pos hx, one_mul]

theorem fl_neg (x : F) : fl (-x) = -fl x := by
  rcases lt_trichotomy x 0 with h | h | h
  · unfold fl ulp
    rw [if_neg (by linarith), if_pos h, abs_neg]
    ring
  · subst h; simp [fl_zero]
  · unfold fl ulp
    rw [if_pos (by linarith), if_neg (by linarith), abs_neg]
    ring

theorem fl_of_bounds (x : F) (e : Int) (hlo : (2 : F) ^ e ≤ x) (hhi : x < (2 : F) ^ (e + 1)) :
    fl x = (roundHalfEven (x / (2 : F) ^ (e - 52)) : F) * (2 : F) ^ (e - 52) := by
  have hx : 0 < x := lt_of_lt_of_le (two_zpow_pos e) hlo
  rw [fl_of_pos x hx, log_two_eq x e hlo hhi]

theorem fl_eval (x : F) (e n : Int) (hlo : (2 : F) ^ e ≤ x) (hhi : x < (2 : F) ^ (e + 1))
    (h1 : (n : F) - 1 / 2 < x / (2 : F) ^ (e - 52))
    (h2 : x / (2 : F) ^ (e - 52) < (n : F) + 1 / 2) :
    fl x = (n : F) * (2 : F) ^ (e - 52) := by
  rw [fl_of_bounds x e hlo hhi, roundHalfEven_of_near _ n h1 h2]

theorem fl_eval_tie (x : F) (e n : Int) (hlo : (2 : F) ^ e ≤ x) (hhi : x < (2 : F) ^ (e + 1))
    (h : x / (2 : F) ^ (e - 52) = (n : F) + 1 / 2) :
    fl x = ((if n % 2 = 0 then n else n + 1 : Int) : F) * (2 : F) ^ (e - 52) := by
  rw [fl_of_bounds x e hlo hhi, roundHalfEven_tie _ n h]

theorem fl_range (x : F) (e : Int) (hlo : (2 : F) ^ e ≤ x) (hhi : x < (2 : F) ^ (e + 1)) :
    (2 : F) ^ e ≤ fl x ∧ fl x ≤ (2 : F) ^ (e + 1) := by
  have hu := two_zpow_pos (F := F) (e - 52)
  have hq1 : (((2 : Int) ^ 52 : Int) : F) ≤ x / (2 : F) ^ (e - 52) := by
    rw [le_div_iff₀ hu]
    have : (((2 : Int) ^ 52 : Int) : F) * (2 : F) ^ (e - 52) = (2 : F) ^ e :=
      intCast_two_pow_mul_zpow 52 _ _ (by omega)
    rw [this]; exact hlo
  have hq2 : x / (2 : F) ^ (e - 52) ≤ (((2 : Int) ^ 53 : Int) : F) := by
    rw [div_le_iff₀ hu]
    have : (((2 : Int) ^ 53 : Int) : F) * (2 : F) ^ (e - 52) = (2 : F) ^ (e + 1) :=
      intCast_two_pow_mul_zpow 53 _ _ (by omega)
    rw [this]; exact hhi.le
  have h1 := le_roundHalfEven _ _ hq1
  have h2 := roundHalfEven_le _ _ hq2
  rw [fl_of_bounds x e hlo hhi]
  constructor
  · have : (2 : F) ^ e = (((2 : Int) ^ 52 : Int) : F) * (2 : F) ^ (e - 52) :=
      (intCast_two_pow_mul_zpow 52 _ _ (by omega)).symm
    rw [this]
    exact mul_le_mul_of_nonneg_right (by exact_mod_cast h1) hu.le
  · have : (2 : F) ^ (e + 1) = (((2 : Int) ^ 53 : Int) : F) * (2 : F) ^ (e - 52) :=
      (intCast_two_pow_mul_zpow 53 _ _ (by omega)).symm
    rw [this]
    exact mul_le_mul_of_nonneg_right (by exact_mod_cast h2) hu.le

theorem fl_mono_pos (x y : F) (hx : 0 < x) (hxy : x ≤ y) : fl x ≤ fl y := by
  have hy : 0 < y := lt_of_lt_of_le hx hxy
  have hle : Int.log 2 x ≤ Int.log 2 y := Int.log_mono_right hx hxy
  rcases hle.lt_or_eq with hlt | heq
  · have h1 := (fl_range x _ (two_zpow_log_le x hx) (lt_two_zpow_log_succ x)).2
    have h2 := (fl_range y _ (two_zpow_log_le y hy) (lt_two_zpow_log_succ y)).1
    have h3 : (2 : F) ^ (Int.log 2 x + 1) ≤ (2 : F) ^ Int.log 2 y :=
      zpow_le_zpow_right₀ (by norm_num) (by omega)
    linarith
  · rw [fl_of_pos x hx, fl_of_pos y hy, heq]
    have hu := two_zpow_pos (F := F) (Int.log 2 y - 52)
    have hq : x / (2 : F) ^ (Int.log 2 y - 52) ≤ y / (2 : F) ^ (Int.log 2 y - 52) :=
      div_le_div_of_nonneg_right hxy hu.le
    have := roundHalfEven_mono hq
    exact mul_le_mul_of_nonneg_right (by exact_mod_cast this) hu.le

theorem fl_pos (x : F) (hx : 0 < x) : 0 < fl x :=
  lt_of_lt_of_le (two_zpow_pos _)
    (fl_range x _ (two_zpow_log_le x hx) (lt_two_zpow_log_succ x)).1

theorem fl_nonneg (x : F) (hx : 0 ≤ x) : 0 ≤ fl x := by
  rcases hx.lt_or_eq with h | h
  · exact (fl_pos x h).le
  · rw [← h, fl_zero]

theorem fl_mono {x y : F} (hxy : x ≤ y) : fl x ≤ fl y := by
  rcases lt_trichotomy 0 x with hx | hx | hx
  · exact fl_mono_pos x y hx hxy
  · rw [← hx, fl_zero]
    exact fl_nonneg y (by rw [hx]; exact hxy)
  · rcases le_or_lt 0 y with hy | hy
    · have h1 : fl x ≤ 0 := by
        have := fl_nonneg (-x) (by linarith)
        rw [fl_neg] at this
        linarith
      exact h1.trans (fl_nonneg y hy)
    · have := fl_mono_pos (-y) (-x) (by linarith) (by linarith)
      rw [fl_neg, fl_neg] at this
      linarith

theorem fl_exact_pos (m k : Int) (hm0 : 0 < m) (hm : m < 2 ^ 53) :
    fl ((m : F) * (2 : F) ^ k) = (m : F) * (2 : F) ^ k := by
  have hk := two_zpow_pos (F := F) k
  have hmF : (0 : F) < (m : F) := by exact_mod_cast hm0
  have hx : (0 : F) < (m : F) * (2 : F) ^ k := mul_pos hmF hk
  have hlog : Int.log 2 ((m : F) * (2 : F) ^ k) < k + 53 := by
    rw [← Int.lt_zpow_iff_log_lt (by norm_num) hx]
    have h53 : ((2 : Nat) : F) ^ (k + 53) = (2 : F) ^ (53 : Nat) * (2 : F) ^ k := by
      rw [← zpow_natCast, ← zpow_add₀ (by norm_num)]
      push_cast
      congr 1; omega
    rw [h53]
    apply mul_lt_mul_of_pos_right _ hk
    exact_mod_cast hm
  obtain ⟨j, hj⟩ : ∃ j : Nat, (j : Int) = k - (Int.log 2 ((m : F) * (2 : F) ^ k) - 52) :=
    ⟨(k - (Int.log 2 ((m : F) * (2 : F) ^ k) - 52)).toNat, by omega⟩
  rw [fl_of_pos _ hx]
  have hu := two_zpow_pos (F := F) (Int.log 2 ((m : F) * (2 : F) ^ k) - 52)
  have hq : (m : F) * (2 : F) ^ k / (2 : F) ^ (Int.log 2 ((m : F) * (2 : F) ^ k) - 52)
      = ((m * 2 ^ j : Int) : F) := by
    rw [div_eq_iff hu.ne']
    push_cast
    rw [mul_assoc, ← zpow_natCast, ← zpow_add₀ (by norm_num), hj]
    congr 2; omega
  rw [hq, roundHalfEven_intCast]
  push_cast
  rw [mul_assoc, ← zpow_natCast, ← zpow_add₀ (by norm_num), hj]
  congr 2; omega

theorem fl_exact (m k : Int) (hm : |m| < 2 ^ 53) :
    fl ((m : F) * (2 : F) ^ k) = (m : F) * (2 : F) ^ k := by
  rcases lt_trichotomy 0 m with h | h | h
  · exact fl_exact_pos m k h (by rwa [abs_of_pos h] at hm)
  · rw [← h]; simp [fl_zero]
  · have hm' : -m < 2 ^ 53 := by rwa [abs_of_neg h] at hm
    have := fl_exact_pos (F := F) (-m) k (by omega) hm'
    push_cast at this
    rw [neg_mul, fl_neg] at this
    linarith

theorem fl_eq_self (x : F) (m k : Int) (hm : |m| < 2 ^ 53) (hx : x = (m : F) * (2 : F) ^ k) :
    fl x = x := by
  rw [hx]; exact fl_exact m k hm

theorem fl_one : fl (1 : F) = 1 :=
  fl_eq_self 1 1 0 (by norm_num) (by simp)

theorem abs_fl_sub_le (x : F) : |fl x - x| ≤ |x| * (2 : F) ^ (-53 : Int) := by
  have key : ∀ y : F, 0 < y → |fl y - y| ≤ y * (2 : F) ^ (-53 : Int) := by
    intro y hy
    have hu := two_zpow_pos (F := F) (Int.log 2 y - 52)
    rw [fl_of_pos y hy]
    have hr := abs_roundHalfEven_sub_le (y / (2 : F) ^ (Int.log 2 y - 52))
    have h1 : (roundHalfEven (y / (2 : F) ^ (Int.log 2 y - 52)) : F) * (2 : F) ^ (Int.log 2 y - 52) - y
        = ((roundHalfEven (y / (2 : F) ^ (Int.log 2 y - 52)) : F)
            - y / (2 : F) ^ (Int.log 2 y - 52)) * (2 : F) ^ (Int.log 2 y - 52) := by
      field_simp
    rw [h1, abs_mul, abs_of_pos hu]
    have h2 : (1 / 2 : F) * (2 : F) ^ (Int.log 2 y - 52)
        = (2 : F) ^ Int.log 2 y * (2 : F) ^ (-53 : Int) := by
      rw [← zpow_add₀ (by norm_num)]
      have : Int.log 2 y - 52 = (Int.log 2 y + -53) + 1 := by omega
      rw [this, zpow_add_one₀ (by norm_num)]
      ring
    calc _ ≤ (1 / 2 : F) * (2 : F) ^ (Int.log 2 y - 52) :=
          mul_le_mul_of_nonneg_right hr hu.le
      _ = (2 : F) ^ Int.log 2 y * (2 : F) ^ (-53 : Int) := h2
      _ ≤ y * (2 : F) ^ (-53 : Int) :=
          mul_le_mul_of_nonneg_right (two_zpow_log_le y hy) (two_zpow_pos _).le
  rcases lt_trichotomy 0 x with h | h | h
  · rw [abs_of_pos h]; exact key x h
  · rw [← h]; simp [fl_zero]
  · have := key (-x) (by linarith)
    rw [fl_neg] at this
    rw [abs_of_neg h]
    have h3 : |fl x - x| = |-fl x - -x| := by
      rw [← abs_neg]; congr 1; ring
    rw [h3]; exact this

end Rounding

/-! ## The branches `cosine`, `euclidean` and `dotproduct` in binary64 arithmetic -/

section Binary64Branches

variable {F : Type} [LinearOrderedField F] [FloorRing F]

open Binary64

theorem binary64_cosine (exp sqrt : F → F) (score : F) (ms : List (Match F)) :
    Binary64.normalizeRelevanceScore exp sqrt score "cosine" ms
      = toFixed (pow (fl (fl (1 + score) / 2)) 2) 4 := by
  simp [Binary64.normalizeRelevanceScore]

theorem binary64_euclidean (exp sqrt : F → F) (score : F) (ms : List (Match F)) :
    Binary64.normalizeRelevanceScore exp sqrt score "euclidean" ms
      = toFixed (fl (1 - exp (fl (-(pow (fl (score
            - (Binary64.calculateStats sqrt (ms.map (fun m => m.score))).mean)) 2)
          / fl (2 * pow (orOne
              (Binary64.calculateStats sqrt (ms.map (fun m => m.score))).stdDev) 2))))) 4 := by
  simp [Binary64.normalizeRelevanceScore]

theorem binary64_dotproduct (exp sqrt : F → F) (score : F) (ms : List (Match F)) :
    Binary64.normalizeRelevanceScore exp sqrt score "dotproduct" ms
      = toFixed (fl (1 / fl (1 + exp (fl (-2 * fl (fl (score
            - (Binary64.calculateStats sqrt (ms.map (fun m => m.score))).mean)
          / Binary64.temperature sqrt (ms.map (fun m => m.score)))))))) 4 := by
  simp [Binary64.normalizeRelevanceScore]

theorem pow_two_zero : pow (0 : F) 2 = 0 := by
  simp [pow, fl_zero]

theorem pow_two_neg (x : F) : pow (-x) 2 = pow x 2 := by
  simp [pow]

theorem pow_two_nonneg (x : F) : 0 ≤ pow x 2 :=
  fl_nonneg _ (sq_nonneg x)

theorem pow_two_mono (x y : F) (hx : 0 ≤ x) (hxy : x ≤ y) : pow x 2 ≤ pow y 2 :=
  fl_mono (pow_le_pow_left₀ hx hxy 2)

theorem fl_two : fl (2 : F) = 2 :=
  fl_eq_self 2 1 1 (by norm_num) (by simp)

theorem fl_half : fl ((1 : F) / 2) = 1 / 2 :=
  fl_eq_self _ 1 (-1) (by norm_num) (by simp)

end Binary64Branches

/-- C4, amended: for metric `euclidean` on a non-empty MatchSet, with `m` the mean that the
code computes for it in binary64 arithmetic and a `Math.exp` that maps 0 to 1, the score `m`
is normalised to the numeral `0.0000`, and two scores at the same distance from `m` get the
same numeral. -/
theorem euclidean_binary64_mean_symmetric (exp sqrt : ℝ → ℝ) (hexp : exp 0 = 1)
    (ms : List (Match ℝ)) (_hne : ms ≠ []) :
    let m := (Binary64.calculateStats sqrt (ms.map (fun x => x.score))).mean
    (Binary64.normalizeRelevanceScore exp sqrt m "euclidean" ms).render = "0.0000"
    ∧ ∀ s1 s2 : ℝ, |s1 - m| = |s2 - m| →
        Binary64.normalizeRelevanceScore exp sqrt s1 "euclidean" ms
          = Binary64.normalizeRelevanceScore exp sqrt s2 "euclidean" ms := by
  intro m
  constructor
  · rw [binary64_euclidean]
    show (toFixed (Binary64.fl (1 - exp (Binary64.fl
      (-(Binary64.pow (Binary64.fl (m - m)) 2) / _)))) 4).render = "0.0000"
    rw [sub_self, fl_zero, pow_two_zero, neg_zero, zero_div, fl_zero, hexp, sub_self, fl_zero,
      toFixed_zero]
    exact render_zero4
  · intro s1 s2 h
    rw [binary64_euclidean, binary64_euclidean]
    show toFixed (Binary64.fl (1 - exp (Binary64.fl
        (-(Binary64.pow (Binary64.fl (s1 - m)) 2) / _)))) 4
      = toFixed (Binary64.fl (1 - exp (Binary64.fl
        (-(Binary64.pow (Binary64.fl (s2 - m)) 2) / _)))) 4
    rcases abs_eq_abs.mp h with h1 | h1
    · rw [h1]
    · rw [h1, fl_neg, pow_two_neg]

/-- C5, amended: for metric `dotproduct` on a non-empty MatchSet, with `m` the mean and `sd`
the standard deviation that the code computes in binary64 arithmetic (`sd` replaced by 1
when it is 0), a `Math.exp` that is non-negative, monotone and maps 0 to 1, and a
non-negative `Math.sqrt`: `sd > 0`, the result is the numeral of
`1/(1+exp(-2*((s-m)/sd)))` computed operation by operation, the score `m` is normalised to
`0.5000`, and the result is non-decreasing in the score. -/
theorem dotproduct_binary64_mean_monotone (exp sqrt : ℝ → ℝ) (hexp : exp 0 = 1)
    (hmono : Monotone exp) (hpos : ∀ x, 0 ≤ exp x) (hsqrt : ∀ x, 0 ≤ sqrt x)
    (ms : List (Match ℝ)) (_hne : ms ≠ []) :
    let m := (Binary64.calculateStats sqrt (ms.map (fun x => x.score))).mean
    let sd := orOne (Binary64.calculateStats sqrt (ms.map (fun x => x.score))).stdDev
    0 < sd
    ∧ (∀ s : ℝ, Binary64.normalizeRelevanceScore exp sqrt s "dotproduct" ms
        = toFixed (Binary64.fl (1 / Binary64.fl (1 + exp (Binary64.fl
            (-2 * Binary64.fl (Binary64.fl (s - m) / sd)))))) 4)
    ∧ (Binary64.normalizeRelevanceScore exp sqrt m "dotproduct" ms).render = "0.5000"
    ∧ (∀ s1 s2 : ℝ, s1 ≤ s2 →
        (Binary64.normalizeRelevanceScore exp sqrt s1 "dotproduct" ms).value (F := ℝ)
          ≤ (Binary64.normalizeRelevanceScore exp sqrt s2 "dotproduct" ms).value) := by
  intro m sd
  have hsd : 0 < sd := by
    show 0 < orOne _
    unfold orOne
    split_ifs with h
    · exact one_pos
    · exact lt_of_le_of_ne (hsqrt _) (Ne.symm h)
  have hf : ∀ s : ℝ, Binary64.normalizeRelevanceScore exp sqrt s "dotproduct" ms
      = toFixed (Binary64.fl (1 / Binary64.fl (1 + exp (Binary64.fl
          (-2 * Binary64.fl (Binary64.fl (s - m) / sd)))))) 4 :=
    fun s => binary64_dotproduct exp sqrt s ms
  refine ⟨hsd, hf, ?_, ?_⟩
  · rw [hf, sub_self, fl_zero, zero_div, fl_zero, mul_zero, fl_zero, hexp]
    have h2 : (1 : ℝ) + 1 = 2 := by norm_num
    rw [h2, fl_two, fl_half, toFixed_half4]
    decide
  · intro s1 s2 h
    rw [hf, hf]
    have hden : ∀ s : ℝ, 1 ≤ Binary64.fl (1 + exp (Binary64.fl
        (-2 * Binary64.fl (Binary64.fl (s - m) / sd)))) := by
      intro s
      have := fl_mono (x := (1 : ℝ)) (y := 1 + exp (Binary64.fl
        (-2 * Binary64.fl (Binary64.fl (s - m) / sd)))) (by linarith [hpos (Binary64.fl
        (-2 * Binary64.fl (Binary64.fl (s - m) / sd)))])
      rwa [fl_one] at this
    have h1 : Binary64.fl (s1 - m) ≤ Binary64.fl (s2 - m) := fl_mono (by linarith)
    have h2 : Binary64.fl (Binary64.fl (s1 - m) / sd) ≤ Binary64.fl (Binary64.fl (s2 - m) / sd) :=
      fl_mono (div_le_div_of_nonneg_right h1 hsd.le)
    have h3 : Binary64.fl (-2 * Binary64.fl (Binary64.fl (s2 - m) / sd))
        ≤ Binary64.fl (-2 * Binary64.fl (Binary64.fl (s1 - m) / sd)) :=
      fl_mono (by linarith)
    have h4 : Binary64.fl (1 + exp (Binary64.fl (-2 * Binary64.fl (Binary64.fl (s2 - m) / sd))))
        ≤ Binary64.fl (1 + exp (Binary64.fl (-2 * Binary64.fl (Binary64.fl (s1 - m) / sd)))) :=
      fl_mono (by linarith [hmono h3])
    apply toFixed_value_mono
    · exact fl_nonneg _ (div_nonneg zero_le_one (by linarith [hden s1]))
    · exact fl_mono (one_div_le_one_div_of_le (by linarith [hden s2]) h4)

/-! ## Concrete evaluations in binary64 arithmetic -/

theorem toFixed4_of_bounds (x : ℝ) (n : Nat) (hx : 0 ≤ x)
    (h1 : ((n : ℝ) - 1 / 2) / 10 ^ 4 ≤ x) (h2 : x < ((n : ℝ) + 1 / 2) / 10 ^ 4) :
    toFixed x 4 = { neg := false, n := n, f := 4 } := by
  rw [toFixed_of_nonneg _ _ hx]
  have h : Nat.floor (x * 10 ^ 4 + 1 / 2) = n := by
    rw [Nat.floor_eq_iff (by positivity)]
    rw [div_le_iff₀ (by norm_num)] at h1
    rw [lt_div_iff₀ (by norm_num)] at h2
    constructor <;> linarith
  rw [h]

theorem rounded_exp_zero : Binary64.rounded Real.exp 0 = 1 := by
  simp [Binary64.rounded, Real.exp_zero, fl_one]

theorem rounded_exp_monotone : Monotone (Binary64.rounded Real.exp) :=
  fun _ _ h => fl_mono (Real.exp_le_exp.mpr h)

theorem rounded_exp_nonneg (x : ℝ) : 0 ≤ Binary64.rounded Real.exp x :=
  fl_nonneg _ (Real.exp_pos x).le

theorem rounded_sqrt_nonneg (x : ℝ) : 0 ≤ Binary64.rounded Real.sqrt x :=
  fl_nonneg _ (Real.sqrt_nonneg x)

theorem stats_three_tenths (a : ℝ) (ha : a = 3602879701896397 / 2 ^ 55) :
    Binary64.calculateStats (Binary64.rounded Real.sqrt) [a, a, a]
      = { mean := a + 1 / 2 ^ 56, stdDev := 1 / 2 ^ 56 } := by
  have h1 : Binary64.fl (0 + a) = a :=
    (fl_eq_self _ 3602879701896397 (-55) (by norm_num) (by rw [ha]; norm_num)).trans
      (by ring)
  have h2 : Binary64.fl (a + a) = 2 * a :=
    (fl_eq_self _ 3602879701896397 (-54) (by norm_num) (by rw [ha]; norm_num)).trans (by ring)
  have h3 : Binary64.fl (2 * a + a) = 5404319552844596 / 2 ^ 54 := by
    have := fl_eval_tie (2 * a + a) (-2) 5404319552844595
      (by rw [ha]; norm_num) (by rw [ha]; norm_num) (by rw [ha]; norm_num)
    rw [this]; norm_num
  have h4 : Binary64.fl (5404319552844596 / 2 ^ 54 / ((3 : Nat) : ℝ)) = a + 1 / 2 ^ 56 := by
    have := fl_eval (5404319552844596 / 2 ^ 54 / ((3 : Nat) : ℝ)) (-4) 7205759403792795
      (by norm_num) (by norm_num) (by norm_num) (by norm_num)
    rw [this, ha]; norm_num
  have h5 : Binary64.fl (a - (a + 1 / 2 ^ 56)) = -(1 / 2 ^ 56) :=
    (fl_eq_self _ (-1) (-56) (by norm_num) (by norm_num)).trans (by ring)
  have h6 : Binary64.pow (-(1 / 2 ^ 56) : ℝ) 2 = 1 / 2 ^ 112 :=
    (fl_eq_self _ 1 (-112) (by norm_num) (by norm_num)).trans (by norm_num)
  have h7 : Binary64.fl ((0 : ℝ) + 1 / 2 ^ 112) = 1 / 2 ^ 112 :=
    (fl_eq_self _ 1 (-112) (by norm_num) (by norm_num)).trans (by norm_num)
  have h8 : Binary64.fl ((1 : ℝ) / 2 ^ 112 + 1 / 2 ^ 112) = 1 / 2 ^ 111 :=
    (fl_eq_self _ 1 (-111) (by norm_num) (by norm_num)).trans (by norm_num)
  have h9 : Binary64.fl ((1 : ℝ) / 2 ^ 111 + 1 / 2 ^ 112) = 3 / 2 ^ 112 :=
    (fl_eq_self _ 3 (-112) (by norm_num) (by norm_num)).trans (by norm_num)
  have h10 : Binary64.fl ((3 : ℝ) / 2 ^ 112 / ((3 : Nat) : ℝ)) = 1 / 2 ^ 112 :=
    (fl_eq_self _ 1 (-112) (by norm_num) (by norm_num)).trans (by norm_num)
  have h11 : Binary64.rounded Real.sqrt ((1 : ℝ) / 2 ^ 112) = 1 / 2 ^ 56 := by
    have hsq : ((1 : ℝ) / 2 ^ 112) = (1 / 2 ^ 56) ^ 2 := by norm_num
    unfold Binary64.rounded
    rw [hsq, Real.sqrt_sq (by positivity)]
    exact (fl_eq_self _ 1 (-56) (by norm_num) (by norm_num)).trans (by norm_num)
  unfold Binary64.calculateStats
  simp only [List.foldl_cons, List.foldl_nil, List.length_cons, List.length_nil]
  have hn : (0 + 1 + 1 + 1 : Nat) = 3 := rfl
  rw [hn, h1, h2, h3, h4, h5, h6, h7, h8, h9, h10, h11]

theorem exp_neg_half_bounds :
    (635993 : ℝ) / 2 ^ 20 ≤ Real.exp (-(1 / 2)) ∧ Real.exp (-(1 / 2)) ≤ 635994 / 2 ^ 20 := by
  have hy : 0 < Real.exp (1 / 2) := Real.exp_pos _
  have hsq : Real.exp (1 / 2) * Real.exp (1 / 2) = Real.exp 1 := by
    rw [← Real.exp_add]; norm_num
  have h1 := Real.exp_one_gt_d9
  have h2 := Real.exp_one_lt_d9
  have hlo : (2 : ℝ) ^ 20 / 635994 ≤ Real.exp (1 / 2) := by
    by_contra hc
    push_neg at hc
    nlinarith
  have hhi : Real.exp (1 / 2) ≤ (2 : ℝ) ^ 20 / 635993 := by
    by_contra hc
    push_neg at hc
    nlinarith
  rw [Real.exp_neg]
  constructor
  · rw [le_inv_comm₀ (by norm_num) hy]
    calc Real.exp (1 / 2) ≤ (2 : ℝ) ^ 20 / 635993 := hhi
      _ = ((635993 : ℝ) / 2 ^ 20)⁻¹ := by norm_num
  · rw [inv_le_comm₀ hy (by norm_num)]
    calc ((635994 : ℝ) / 2 ^ 20)⁻¹ = (2 : ℝ) ^ 20 / 635994 := by norm_num
      _ ≤ Real.exp (1 / 2) := hlo

theorem exp_two_bounds : (1891 : ℝ) / 256 ≤ Real.exp 2 ∧ Real.exp 2 ≤ 473 / 64 := by
  have hsq : Real.exp 1 * Real.exp 1 = Real.exp 2 := by
    rw [← Real.exp_add]; norm_num
  have h1 := Real.exp_one_gt_d9
  have h2 := Real.exp_one_lt_d9
  constructor <;> nlinarith

theorem exp_neg_le_small (x : ℝ) (hx : 54 ≤ x) : Real.exp (-x) ≤ 1 / 2 ^ 54 := by
  have h1 : Real.exp (-x) ≤ Real.exp (-54) := Real.exp_le_exp.mpr (by linarith)
  have h2 : Real.exp (-54) = Real.exp (-1) ^ 54 := by
    rw [← Real.exp_nat_mul]; norm_num
  have h3 : Real.exp (-1) ≤ 1 / 2 := by
    rw [Real.exp_neg, inv_eq_one_div]
    apply one_div_le_one_div_of_le (by norm_num)
    have := Real.add_one_le_exp 1
    linarith
  have h4 : Real.exp (-1) ^ 54 ≤ (1 / 2 : ℝ) ^ 54 :=
    pow_le_pow_left₀ (Real.exp_pos _).le h3 54
  calc Real.exp (-x) ≤ Real.exp (-54) := h1
    _ = Real.exp (-1) ^ 54 := h2
    _ ≤ (1 / 2 : ℝ) ^ 54 := h4
    _ = 1 / 2 ^ 54 := by norm_num

theorem fl_one_add_small (t : ℝ) (h0 : 0 ≤ t) (h1 : t ≤ 1 / 2 ^ 54) :
    Binary64.fl (1 + t) = 1 := by
  have := fl_eval (1 + t) 0 (2 ^ 52) (by norm_num; linarith)
    (by norm_num at h1 ⊢; linarith) (by norm_num at h1 ⊢; linarith)
    (by norm_num at h1 ⊢; linarith)
  rw [this]; norm_num

theorem binary64_stats_single_zero :
    Binary64.calculateStats (Binary64.rounded Real.sqrt) [(0 : ℝ)]
      = { mean := 0, stdDev := 0 } := by
  simp [Binary64.calculateStats, Binary64.pow, Binary64.rounded, fl_zero]

theorem dotproduct_saturates (s : ℝ) (m : Int) (hm : |m| < 2 ^ 53) (hs : s = (m : ℝ))
    (hbig : 27 ≤ s) :
    Binary64.normalizeRelevanceScore (Binary64.rounded Real.exp) (Binary64.rounded Real.sqrt)
        s "dotproduct" [⟨0, []⟩]
      = { neg := false, n := 10 ^ 4, f := 4 } := by
  rw [binary64_dotproduct]
  simp only [List.map_cons, List.map_nil, Binary64.temperature, binary64_stats_single_zero]
  have hor : orOne (0 : ℝ) = 1 := by simp [orOne]
  have h1 : Binary64.fl (s - 0) = s :=
    (fl_eq_self _ m 0 hm (by rw [hs]; simp)).trans (by ring)
  have h2 : Binary64.fl (s / 1) = s :=
    (fl_eq_self _ m 0 hm (by rw [hs]; simp)).trans (by ring)
  have h3 : Binary64.fl (-2 * s) = -(2 * s) :=
    (fl_eq_self _ (-m) 1 (by rwa [abs_neg]) (by rw [hs]; push_cast; ring)).trans (by ring)
  have ht0 := rounded_exp_nonneg (-(2 * s))
  have ht1 : Binary64.rounded Real.exp (-(2 * s)) ≤ 1 / 2 ^ 54 := by
    have := fl_mono (exp_neg_le_small (2 * s) (by linarith))
    have h54 : Binary64.fl ((1 : ℝ) / 2 ^ 54) = 1 / 2 ^ 54 :=
      (fl_eq_self _ 1 (-54) (by norm_num) (by norm_num)).trans (by norm_num)
    rw [h54] at this
    exact this
  rw [hor, h1, h2, h3, fl_one_add_small _ ht0 ht1]
  have h11 : (1 : ℝ) / 1 = 1 := by norm_num
  rw [h11, fl_one, toFixed_one]

theorem euclidean_three_tenths (a : ℝ) (ha : a = 3602879701896397 / 2 ^ 55) :
    Binary64.normalizeRelevanceScore (Binary64.rounded Real.exp) (Binary64.rounded Real.sqrt)
        a "euclidean" [⟨a, []⟩, ⟨a, []⟩, ⟨a, []⟩]
      = { neg := false, n := 3935, f := 4 } := by
  rw [binary64_euclidean]
  simp only [List.map_cons, List.map_nil]
  rw [stats_three_tenths a ha]
  have hor : orOne ((1 : ℝ) / 2 ^ 56) = 1 / 2 ^ 56 := by
    unfold orOne
    rw [if_neg (by norm_num)]
  have h5 : Binary64.fl (a - (a + 1 / 2 ^ 56)) = -(1 / 2 ^ 56) :=
    (fl_eq_self _ (-1) (-56) (by norm_num) (by norm_num)).trans (by ring)
  have h6 : Binary64.pow (-(1 / 2 ^ 56) : ℝ) 2 = 1 / 2 ^ 112 :=
    (fl_eq_self _ 1 (-112) (by norm_num) (by norm_num)).trans (by norm_num)
  have h6b : Binary64.pow ((1 : ℝ) / 2 ^ 56) 2 = 1 / 2 ^ 112 :=
    (fl_eq_self _ 1 (-112) (by norm_num) (by norm_num)).trans (by norm_num)
  have h7 : Binary64.fl ((2 : ℝ) * (1 / 2 ^ 112)) = 1 / 2 ^ 111 :=
    (fl_eq_self _ 1 (-111) (by norm_num) (by norm_num)).trans (by norm_num)
  have h8 : -((1 : ℝ) / 2 ^ 112) / (1 / 2 ^ 111) = -(1 / 2) := by norm_num
  have h9 : Binary64.fl (-((1 : ℝ) / 2)) = -(1 / 2) :=
    fl_eq_self _ (-1) (-1) (by norm_num) (by norm_num)
  simp only [hor, h5, h6, h6b, h7, h8, h9]
  have hlo : (635993 : ℝ) / 2 ^ 20 ≤ Binary64.rounded Real.exp (-(1 / 2)) := by
    have := fl_mono exp_neg_half_bounds.1
    rwa [fl_eq_self _ 635993 (-20) (by norm_num) (by norm_num)] at this
  have hhi : Binary64.rounded Real.exp (-(1 / 2)) ≤ (635994 : ℝ) / 2 ^ 20 := by
    have := fl_mono exp_neg_half_bounds.2
    rwa [fl_eq_self (635994 / 2 ^ 20 : ℝ) 635994 (-20) (by norm_num) (by norm_num)] at this
  have hvlo : (412582 : ℝ) / 2 ^ 20
      ≤ Binary64.fl (1 - Binary64.rounded Real.exp (-(1 / 2))) := by
    have := fl_mono (x := (412582 : ℝ) / 2 ^ 20)
      (y := 1 - Binary64.rounded Real.exp (-(1 / 2))) (by norm_num at hhi ⊢; linarith)
    rwa [fl_eq_self _ 412582 (-20) (by norm_num) (by norm_num)] at this
  have hvhi : Binary64.fl (1 - Binary64.rounded Real.exp (-(1 / 2)))
      ≤ (412583 : ℝ) / 2 ^ 20 := by
    have := fl_mono (x := 1 - Binary64.rounded Real.exp (-(1 / 2)))
      (y := (412583 : ℝ) / 2 ^ 20) (by norm_num at hlo ⊢; linarith)
    rwa [fl_eq_self (412583 / 2 ^ 20 : ℝ) 412583 (-20) (by norm_num) (by norm_num)] at this
  apply toFixed4_of_bounds
  · linarith [show (0 : ℝ) ≤ 412582 / 2 ^ 20 by norm_num]
  · norm_num at hvlo ⊢; linarith
  · norm_num at hvhi ⊢; linarith

theorem dotproduct_three_tenths (a : ℝ) (ha : a = 3602879701896397 / 2 ^ 55) :
    Binary64.normalizeRelevanceScore (Binary64.rounded Real.exp) (Binary64.rounded Real.sqrt)
        a "dotproduct" [⟨a, []⟩, ⟨a, []⟩, ⟨a, []⟩]
      = { neg := false, n := 1192, f := 4 } := by
  rw [binary64_dotproduct]
  simp only [List.map_cons, List.map_nil, Binary64.temperature]
  rw [stats_three_tenths a ha]
  have hor : orOne ((1 : ℝ) / 2 ^ 56) = 1 / 2 ^ 56 := by
    unfold orOne
    rw [if_neg (by norm_num)]
  have h5 : Binary64.fl (a - (a + 1 / 2 ^ 56)) = -(1 / 2 ^ 56) :=
    (fl_eq_self _ (-1) (-56) (by norm_num) (by norm_num)).trans (by ring)
  have h6 : -((1 : ℝ) / 2 ^ 56) / (1 / 2 ^ 56) = -1 := by norm_num
  have h7 : Binary64.fl (-1 : ℝ) = -1 :=
    fl_eq_self _ (-1) 0 (by norm_num) (by norm_num)
  have h8 : (-2 : ℝ) * -1 = 2 := by norm_num
  simp only [hor, h5, h6, h7, h8, fl_two]
  have hlo : (1891 : ℝ) / 256 ≤ Binary64.rounded Real.exp 2 := by
    have := fl_mono exp_two_bounds.1
    rwa [fl_eq_self _ 1891 (-8) (by norm_num) (by norm_num)] at this
  have hhi : Binary64.rounded Real.exp 2 ≤ (473 : ℝ) / 64 := by
    have := fl_mono exp_two_bounds.2
    rwa [fl_eq_self (473 / 64 : ℝ) 473 (-6) (by norm_num) (by norm_num)] at this
  have hdlo : (2147 : ℝ) / 256 ≤ Binary64.fl (1 + Binary64.rounded Real.exp 2) := by
    have := fl_mono (x := (2147 : ℝ) / 256) (y := 1 + Binary64.rounded Real.exp 2)
      (by linarith)
    rwa [fl_eq_self _ 2147 (-8) (by norm_num) (by norm_num)] at this
  have hdhi : Binary64.fl (1 + Binary64.rounded Real.exp 2) ≤ (537 : ℝ) / 64 := by
    have := fl_mono (x := 1 + Binary64.rounded Real.exp 2) (y := (537 : ℝ) / 64)
      (by linarith)
    rwa [fl_eq_self (537 / 64 : ℝ) 537 (-6) (by norm_num) (by norm_num)] at this
  have hdpos : (0 : ℝ) < Binary64.fl (1 + Binary64.rounded Real.exp 2) := by linarith
  have hwlo : (7810 : ℝ) / 2 ^ 16 ≤ Binary64.fl (1 / Binary64.fl (1 + Binary64.rounded Real.exp 2)) := by
    have := fl_mono (x := (7810 : ℝ) / 2 ^ 16)
      (y := 1 / Binary64.fl (1 + Binary64.rounded Real.exp 2))
      (by rw [le_div_iff₀ hdpos]; norm_num at hdhi ⊢; linarith)
    rwa [fl_eq_self _ 7810 (-16) (by norm_num) (by norm_num)] at this
  have hwhi : Binary64.fl (1 / Binary64.fl (1 + Binary64.rounded Real.exp 2)) ≤ (7815 : ℝ) / 2 ^ 16 := by
    have := fl_mono (x := 1 / Binary64.fl (1 + Binary64.rounded Real.exp 2))
      (y := (7815 : ℝ) / 2 ^ 16)
      (by rw [div_le_iff₀ hdpos]; norm_num at hdlo ⊢; linarith)
    rwa [fl_eq_self (7815 / 2 ^ 16 : ℝ) 7815 (-16) (by norm_num) (by norm_num)] at this
  apply toFixed4_of_bounds
  · linarith [show (0 : ℝ) ≤ 7810 / 2 ^ 16 by norm_num]
  · norm_num at hwlo ⊢; linarith
  · norm_num at hwhi ⊢; linarith

theorem cosine_at_counterexample (s : ℝ) (hs : s = 114917108055811 / 2 ^ 47)
    (exp sqrt : ℝ → ℝ) (ms : List (Match ℝ)) :
    Binary64.normalizeRelevanceScore exp sqrt s "cosine" ms
      = { neg := false, n := 8249, f := 4 } := by
  rw [binary64_cosine]
  have h1 : Binary64.fl (1 + s) = 255654596411139 / 2 ^ 47 :=
    (fl_eq_self _ 255654596411139 (-47) (by norm_num) (by rw [hs]; norm_num)).trans
      (by rw [hs]; norm_num)
  have h2 : Binary64.fl ((255654596411139 : ℝ) / 2 ^ 47 / 2) = 255654596411139 / 2 ^ 48 :=
    (fl_eq_self _ 255654596411139 (-48) (by norm_num) (by norm_num)).trans (by norm_num)
  have h3 : Binary64.pow ((255654596411139 : ℝ) / 2 ^ 48) 2 = 7430489025198581 / 2 ^ 53 := by
    unfold Binary64.pow
    have := fl_eval (((255654596411139 : ℝ) / 2 ^ 48) ^ 2) (-1) 7430489025198581
      (by norm_num) (by norm_num) (by norm_num) (by norm_num)
    rw [this]; norm_num
  rw [h1, h2, h3]
  apply toFixed4_of_bounds <;> norm_num

theorem cosine_at_half (exp sqrt : ℝ → ℝ) (ms : List (Match ℝ)) :
    Binary64.normalizeRelevanceScore exp sqrt 0.5 "cosine" ms
      = { neg := false, n := 5625, f := 4 } := by
  rw [binary64_cosine]
  have h1 : Binary64.fl (1 + (0.5 : ℝ)) = 3 / 2 :=
    (fl_eq_self _ 3 (-1) (by norm_num) (by norm_num)).trans (by norm_num)
  have h2 : Binary64.fl ((3 : ℝ) / 2 / 2) = 3 / 4 :=
    (fl_eq_self _ 3 (-2) (by norm_num) (by norm_num)).trans (by norm_num)
  have h3 : Binary64.pow ((3 : ℝ) / 4) 2 = 9 / 16 :=
    (fl_eq_self _ 9 (-4) (by norm_num) (by norm_num)).trans (by norm_num)
  rw [h1, h2, h3]
  apply toFixed4_of_bounds <;> norm_num

/-- C2, as stated, fails: the score `114917108055811 / 2^47` (the binary64 number written
0.81653516343615) lies in [-1, 1]; the code, which squares in binary64 arithmetic, returns
`0.8249`, while `((1+s)/2)^2` rounded to 4 decimals is 0.8250. -/
theorem cosine_rounding_counterexample :
    let s : ℝ := 114917108055811 / 2 ^ 47
    (-1 : ℝ) ≤ s ∧ s ≤ 1
    ∧ (Binary64.normalizeRelevanceScore (Binary64.rounded Real.exp)
        (Binary64.rounded Real.sqrt) s "cosine" [⟨s, []⟩]).render = "0.8249"
    ∧ specRound (((1 + s) / 2) ^ 2) 4 = 8250 / 10 ^ 4
    ∧ (Binary64.normalizeRelevanceScore (Binary64.rounded Real.exp)
        (Binary64.rounded Real.sqrt) s "cosine" [⟨s, []⟩]).value
          ≠ specRound (((1 + s) / 2) ^ 2) 4 := by
  intro s
  have hN := cosine_at_counterexample s rfl (Binary64.rounded Real.exp)
    (Binary64.rounded Real.sqrt) [⟨s, []⟩]
  have hR : specRound (((1 + s) / 2) ^ 2) 4 = 8250 / 10 ^ 4 := by
    unfold specRound
    have hf : Int.floor (((1 + s) / 2) ^ 2 * 10 ^ 4 + 1 / 2) = 8250 := by
      rw [Int.floor_eq_iff]
      constructor <;> norm_num [s]
    rw [hf]; norm_num
  refine ⟨by norm_num [s], by norm_num [s], ?_, hR, ?_⟩
  · rw [hN]; decide
  · rw [hN, hR]
    norm_num [Fixed.value]

theorem specRound_close (a b : ℝ) (d : Nat) (h : |a - b| < 1 / 10 ^ d) :
    |specRound a d - specRound b d| ≤ 1 / 10 ^ d := by
  have h10 : (0 : ℝ) < 10 ^ d := by positivity
  have hab : |a * 10 ^ d - b * 10 ^ d| < 1 := by
    rw [← sub_mul, abs_mul, abs_of_pos h10]
    rwa [lt_div_iff₀ h10] at h
  rw [abs_lt] at hab
  have ha1 := Int.floor_le (a * 10 ^ d + 1 / 2)
  have ha2 := Int.lt_floor_add_one (a * 10 ^ d + 1 / 2)
  have hb1 := Int.floor_le (b * 10 ^ d + 1 / 2)
  have hb2 := Int.lt_floor_add_one (b * 10 ^ d + 1 / 2)
  have h1 : Int.floor (a * 10 ^ d + 1 / 2) ≤ Int.floor (b * 10 ^ d + 1 / 2) + 1 := by
    have : ((Int.floor (a * 10 ^ d + 1 / 2) : Int) : ℝ)
        < ((Int.floor (b * 10 ^ d + 1 / 2) + 2 : Int) : ℝ) := by
      push_cast; linarith [hab.1, hab.2]
    have := Int.cast_lt.mp this
    omega
  have h2 : Int.floor (b * 10 ^ d + 1 / 2) ≤ Int.floor (a * 10 ^ d + 1 / 2) + 1 := by
    have : ((Int.floor (b * 10 ^ d + 1 / 2) : Int) : ℝ)
        < ((Int.floor (a * 10 ^ d + 1 / 2) + 2 : Int) : ℝ) := by
      push_cast; linarith [hab.1, hab.2]
    have := Int.cast_lt.mp this
    omega
  unfold specRound
  rw [← sub_div, abs_div, abs_of_pos h10]
  apply div_le_div_of_nonneg_right _ h10.le
  rw [abs_le]
  constructor
  · have : ((Int.floor (b * 10 ^ d + 1 / 2) : Int) : ℝ)
        ≤ ((Int.floor (a * 10 ^ d + 1 / 2) + 1 : Int) : ℝ) := Int.cast_le.mpr h2
    push_cast at this; linarith
  · have : ((Int.floor (a * 10 ^ d + 1 / 2) : Int) : ℝ)
        ≤ ((Int.floor (b * 10 ^ d + 1 / 2) + 1 : Int) : ℝ) := Int.cast_le.mpr h1
    push_cast at this; linarith

theorem cosine_binary64_error (s : ℝ) (h1 : -1 ≤ s) (h2 : s ≤ 1) :
    |Binary64.pow (Binary64.fl (Binary64.fl (1 + s) / 2)) 2 - ((1 + s) / 2) ^ 2|
      < 1 / 10 ^ 4 := by
  have he : (2 : ℝ) ^ (-53 : Int) ≤ 1 / 10 ^ 15 := by norm_num
  have he0 : (0 : ℝ) < (2 : ℝ) ^ (-53 : Int) := two_zpow_pos _
  have ht0 : 0 ≤ Binary64.fl (1 + s) := fl_nonneg _ (by linarith)
  have ht := abs_fl_sub_le (1 + s)
  rw [abs_of_nonneg (by linarith : (0 : ℝ) ≤ 1 + s), abs_le] at ht
  have hh0 : 0 ≤ Binary64.fl (Binary64.fl (1 + s) / 2) := fl_nonneg _ (by linarith)
  have hh := abs_fl_sub_le (Binary64.fl (1 + s) / 2)
  rw [abs_of_nonneg (by linarith : (0 : ℝ) ≤ Binary64.fl (1 + s) / 2), abs_le] at hh
  have hp := abs_fl_sub_le ((Binary64.fl (Binary64.fl (1 + s) / 2)) ^ 2)
  rw [abs_sq, abs_le] at hp
  unfold Binary64.pow
  generalize Binary64.fl ((Binary64.fl (Binary64.fl (1 + s) / 2)) ^ 2) = p at hp ⊢
  generalize Binary64.fl (Binary64.fl (1 + s) / 2) = h at hh hh0 hp ⊢
  generalize Binary64.fl (1 + s) = t at ht ht0 hh ⊢
  generalize (2 : ℝ) ^ (-53 : Int) = e at he he0 ht hh hp
  have e1 : e ≤ 1 / 10 ^ 15 := he
  have hse : (1 + s) * e ≤ 2 * (1 / 10 ^ 15) :=
    mul_le_mul (by linarith) e1 he0.le (by norm_num)
  have ht2 : t ≤ 3 := by linarith [ht.2]
  have hte : t / 2 * e ≤ 2 * (1 / 10 ^ 15) :=
    mul_le_mul (by linarith) e1 he0.le (by norm_num)
  have hhu1 : -(1 / 10 ^ 13) ≤ h - (1 + s) / 2 := by linarith [ht.1, hh.1]
  have hhu2 : h - (1 + s) / 2 ≤ 1 / 10 ^ 13 := by linarith [ht.2, hh.2]
  have hh2 : h ≤ 2 := by linarith
  have hh4 : h ^ 2 ≤ 4 := by nlinarith
  have hhe : h ^ 2 * e ≤ 4 * (1 / 10 ^ 15) :=
    mul_le_mul hh4 e1 he0.le (by norm_num)
  have hsum0 : 0 ≤ h + (1 + s) / 2 := by linarith
  have hsum3 : h + (1 + s) / 2 ≤ 3 := by linarith
  have hfac : h ^ 2 - ((1 + s) / 2) ^ 2 = (h - (1 + s) / 2) * (h + (1 + s) / 2) := by ring
  have hsq1 : -(3 / 10 ^ 13) ≤ h ^ 2 - ((1 + s) / 2) ^ 2 := by
    rw [hfac]
    have : -(1 / 10 ^ 13) * (h + (1 + s) / 2) ≤ (h - (1 + s) / 2) * (h + (1 + s) / 2) :=
      mul_le_mul_of_nonneg_right hhu1 hsum0
    have h3 : (1 / 10 ^ 13 : ℝ) * (h + (1 + s) / 2) ≤ 1 / 10 ^ 13 * 3 :=
      mul_le_mul_of_nonneg_left hsum3 (by norm_num)
    linarith
  have hsq2 : h ^ 2 - ((1 + s) / 2) ^ 2 ≤ 3 / 10 ^ 13 := by
    rw [hfac]
    have : (h - (1 + s) / 2) * (h + (1 + s) / 2) ≤ 1 / 10 ^ 13 * (h + (1 + s) / 2) :=
      mul_le_mul_of_nonneg_right hhu2 hsum0
    have h3 : (1 / 10 ^ 13 : ℝ) * (h + (1 + s) / 2) ≤ 1 / 10 ^ 13 * 3 :=
      mul_le_mul_of_nonneg_left hsum3 (by norm_num)
    linarith
  rw [abs_lt]
  constructor
  · linarith [hp.1]
  · linarith [hp.2]

/-- C2, amended: for metric `cosine` and scores `-1 ≤ s1 ≤ s2 ≤ 1`, the result for `s1` is the
4-decimal numeral of `((1+s1)/2)^2` as binary64 arithmetic computes it, the same for every
MatchSet; its value is within one unit of the fourth decimal of the exact `((1+s1)/2)^2`
rounded to 4 decimals; the result for `s1` is at most the result for `s2`; and the score
`0.5` yields `0.5625` with any MatchSet. -/
theorem cosine_binary64_monotone (exp sqrt : ℝ → ℝ) (ms : List (Match ℝ)) (s1 s2 : ℝ)
    (h1 : -1 ≤ s1) (h12 : s1 ≤ s2) (h2 : s2 ≤ 1) :
    (∀ ms2 : List (Match ℝ),
        Binary64.normalizeRelevanceScore exp sqrt s1 "cosine" ms2
          = Binary64.normalizeRelevanceScore exp sqrt s1 "cosine" ms)
    ∧ Binary64.normalizeRelevanceScore exp sqrt s1 "cosine" ms
        = toFixed (Binary64.pow (Binary64.fl (Binary64.fl (1 + s1) / 2)) 2) 4
    ∧ |(Binary64.normalizeRelevanceScore exp sqrt s1 "cosine" ms).value
        - specRound (((1 + s1) / 2) ^ 2) 4| ≤ 1 / 10 ^ 4
    ∧ (Binary64.normalizeRelevanceScore exp sqrt s1 "cosine" ms).value (F := ℝ)
        ≤ (Binary64.normalizeRelevanceScore exp sqrt s2 "cosine" ms).value
    ∧ (∀ ms2 : List (Match ℝ),
        (Binary64.normalizeRelevanceScore exp sqrt 0.5 "cosine" ms2).render = "0.5625") := by
  refine ⟨fun ms2 => by rw [binary64_cosine, binary64_cosine], binary64_cosine _ _ _ _,
    ?_, ?_, ?_⟩
  · rw [binary64_cosine, toFixed_value_of_nonneg _ _ (pow_two_nonneg _)]
    exact specRound_close _ _ 4 (cosine_binary64_error s1 h1 (h12.trans h2))
  · rw [binary64_cosine, binary64_cosine]
    apply toFixed_value_mono _ _ _ (pow_two_nonneg _)
    apply pow_two_mono
    · exact fl_nonneg _ (div_nonneg (fl_nonneg _ (by linarith)) (by norm_num))
    · exact fl_mono (div_le_div_of_nonneg_right (fl_mono (by linarith)) (by norm_num))
  · intro ms2
    rw [cosine_at_half]
    decide

/-- Witness for the amended C2 at the scores 0 and 0.5 of the MatchSet `[0, 0.5]`. -/
theorem cosine_binary64_monotone_witness :
    (-1 : ℝ) ≤ 0 ∧ (0 : ℝ) ≤ 0.5 ∧ (0.5 : ℝ) ≤ 1
    ∧ ((∀ ms2 : List (Match ℝ),
        Binary64.normalizeRelevanceScore (Binary64.rounded Real.exp)
            (Binary64.rounded Real.sqrt) 0 "cosine" ms2
          = Binary64.normalizeRelevanceScore (Binary64.rounded Real.exp)
              (Binary64.rounded Real.sqrt) 0 "cosine" [⟨0, []⟩, ⟨0.5, []⟩])
    ∧ Binary64.normalizeRelevanceScore (Binary64.rounded Real.exp)
          (Binary64.rounded Real.sqrt) 0 "cosine" [⟨0, []⟩, ⟨0.5, []⟩]
        = toFixed (Binary64.pow (Binary64.fl (Binary64.fl (1 + (0 : ℝ)) / 2)) 2) 4
    ∧ |(Binary64.normalizeRelevanceScore (Binary64.rounded Real.exp)
          (Binary64.rounded Real.sqrt) 0 "cosine" [⟨0, []⟩, ⟨0.5, []⟩]).value
        - specRound (((1 + (0 : ℝ)) / 2) ^ 2) 4| ≤ 1 / 10 ^ 4
    ∧ (Binary64.normalizeRelevanceScore (Binary64.rounded Real.exp)
          (Binary64.rounded Real.sqrt) 0 "cosine" [⟨0, []⟩, ⟨0.5, []⟩]).value (F := ℝ)
        ≤ (Binary64.normalizeRelevanceScore (Binary64.rounded Real.exp)
            (Binary64.rounded Real.sqrt) 0.5 "cosine" [⟨0, []⟩, ⟨0.5, []⟩]).value
    ∧ (∀ ms2 : List (Match ℝ),
        (Binary64.normalizeRelevanceScore (Binary64.rounded Real.exp)
          (Binary64.rounded Real.sqrt) 0.5 "cosine" ms2).render = "0.5625")) :=
  ⟨by norm_num, by norm_num, by norm_num,
   cosine_binary64_monotone (Binary64.rounded Real.exp) (Binary64.rounded Real.sqrt)
     [⟨0, []⟩, ⟨0.5, []⟩] 0 0.5 (by norm_num) (by norm_num) (by norm_num)⟩

/-- C4, as stated, fails: on three matches of raw score `3602879701896397 / 2^55` (the
binary64 number written 0.1) the population mean is that score, the mean the code computes
is one unit in the last place larger, the computed standard deviation is not 0, and the
score is normalised to `0.3935`, not `0.0000`. -/
theorem euclidean_exact_mean_counterexample :
    let a : ℝ := 3602879701896397 / 2 ^ 55
    let ms : List (Match ℝ) := [⟨a, []⟩, ⟨a, []⟩, ⟨a, []⟩]
    specMean (ms.map (fun x => x.score)) = a
    ∧ (Binary64.calculateStats (Binary64.rounded Real.sqrt) (ms.map (fun x => x.score))).mean
        = a + 1 / 2 ^ 56
    ∧ (Binary64.calculateStats (Binary64.rounded Real.sqrt) (ms.map (fun x => x.score))).stdDev
        = 1 / 2 ^ 56
    ∧ (Binary64.normalizeRelevanceScore (Binary64.rounded Real.exp)
        (Binary64.rounded Real.sqrt) a "euclidean" ms).render = "0.3935"
    ∧ (Binary64.normalizeRelevanceScore (Binary64.rounded Real.exp)
        (Binary64.rounded Real.sqrt) a "euclidean" ms).render ≠ "0.0000" := by
  intro a ms
  have hst := stats_three_tenths a rfl
  have hN := euclidean_three_tenths a rfl
  refine ⟨?_, ?_, ?_, ?_, ?_⟩
  · simp only [ms, List.map_cons, List.map_nil, specMean, List.sum_cons, List.sum_nil,
      List.length_cons, List.length_nil]
    norm_num
  · simp only [ms, List.map_cons, List.map_nil, hst]
  · simp only [ms, List.map_cons, List.map_nil, hst]
  · rw [hN]; decide
  · rw [hN]; decide

/-- Witness for the amended C4: the rounded real exponential and square root, and the
MatchSet with raw scores 1 and 3. -/
theorem euclidean_binary64_mean_symmetric_witness :
    let ms : List (Match ℝ) := [⟨1, []⟩, ⟨3, []⟩]
    Binary64.rounded Real.exp 0 = 1 ∧ ms ≠ []
    ∧ (let m := (Binary64.calculateStats (Binary64.rounded Real.sqrt)
          (ms.map (fun x => x.score))).mean
    (Binary64.normalizeRelevanceScore (Binary64.rounded Real.exp)
        (Binary64.rounded Real.sqrt) m "euclidean" ms).render = "0.0000"
    ∧ ∀ s1 s2 : ℝ, |s1 - m| = |s2 - m| →
        Binary64.normalizeRelevanceScore (Binary64.rounded Real.exp)
            (Binary64.rounded Real.sqrt) s1 "euclidean" ms
          = Binary64.normalizeRelevanceScore (Binary64.rounded Real.exp)
              (Binary64.rounded Real.sqrt) s2 "euclidean" ms) :=
  ⟨rounded_exp_zero, by simp,
   euclidean_binary64_mean_symmetric (Binary64.rounded Real.exp) (Binary64.rounded Real.sqrt)
     rounded_exp_zero [⟨1, []⟩, ⟨3, []⟩] (by simp)⟩

/-- C5, as stated, fails: on three matches of raw score `3602879701896397 / 2^55` (the
binary64 number written 0.1) that score is the population mean and is normalised to
`0.1192`, not `0.5000`; and on the MatchSet with the single raw score 0 the scores
10000 < 20000 both get `1.0000`, so the result is not strictly increasing. -/
theorem dotproduct_binary64_counterexample :
    let a : ℝ := 3602879701896397 / 2 ^ 55
    let ms : List (Match ℝ) := [⟨a, []⟩, ⟨a, []⟩, ⟨a, []⟩]
    specMean (ms.map (fun x => x.score)) = a
    ∧ (Binary64.normalizeRelevanceScore (Binary64.rounded Real.exp)
        (Binary64.rounded Real.sqrt) a "dotproduct" ms).render = "0.1192"
    ∧ (Binary64.normalizeRelevanceScore (Binary64.rounded Real.exp)
        (Binary64.rounded Real.sqrt) a "dotproduct" ms).render ≠ "0.5000"
    ∧ (10000 : ℝ) < 20000
    ∧ (Binary64.normalizeRelevanceScore (Binary64.rounded Real.exp)
        (Binary64.rounded Real.sqrt) 10000 "dotproduct" [⟨0, []⟩]).render = "1.0000"
    ∧ (Binary64.normalizeRelevanceScore (Binary64.rounded Real.exp)
        (Binary64.rounded Real.sqrt) 20000 "dotproduct" [⟨0, []⟩]).render = "1.0000"
    ∧ ¬ ((Binary64.normalizeRelevanceScore (Binary64.rounded Real.exp)
          (Binary64.rounded Real.sqrt) 10000 "dotproduct" [⟨0, []⟩]).value (F := ℝ)
        < (Binary64.normalizeRelevanceScore (Binary64.rounded Real.exp)
            (Binary64.rounded Real.sqrt) 20000 "dotproduct" [⟨0, []⟩]).value) := by
  intro a ms
  have hN := dotproduct_three_tenths a rfl
  have h1 := dotproduct_saturates 10000 10000 (by norm_num) (by norm_num) (by norm_num)
  have h2 := dotproduct_saturates 20000 20000 (by norm_num) (by norm_num) (by norm_num)
  refine ⟨?_, ?_, ?_, by norm_num, ?_, ?_, ?_⟩
  · simp only [ms, List.map_cons, List.map_nil, specMean, List.sum_cons, List.sum_nil,
      List.length_cons, List.length_nil]
    norm_num
  · rw [hN]; decide
  · rw [hN]; decide
  · rw [h1]; decide
  · rw [h2]; decide
  · rw [h1, h2]; exact lt_irrefl _

/-- Witness for the amended C5: the rounded real exponential and square root, and the
MatchSet with raw scores 1 and 3. -/
theorem dotproduct_binary64_mean_monotone_witness :
    let ms : List (Match ℝ) := [⟨1, []⟩, ⟨3, []⟩]
    Binary64.rounded Real.exp 0 = 1 ∧ Monotone (Binary64.rounded Real.exp)
    ∧ (∀ x, 0 ≤ Binary64.rounded Real.exp x) ∧ (∀ x, 0 ≤ Binary64.rounded Real.sqrt x)
    ∧ ms ≠ []
    ∧ (let m := (Binary64.calculateStats (Binary64.rounded Real.sqrt)
          (ms.map (fun x => x.score))).mean
    let sd := orOne (Binary64.calculateStats (Binary64.rounded Real.sqrt)
          (ms.map (fun x => x.score))).stdDev
    0 < sd
    ∧ (∀ s : ℝ, Binary64.normalizeRelevanceScore (Binary64.rounded Real.exp)
          (Binary64.rounded Real.sqrt) s "dotproduct" ms
        = toFixed (Binary64.fl (1 / Binary64.fl (1 + Binary64.rounded Real.exp (Binary64.fl
            (-2 * Binary64.fl (Binary64.fl (s - m) / sd)))))) 4)
    ∧ (Binary64.normalizeRelevanceScore (Binary64.rounded Real.exp)
        (Binary64.rounded Real.sqrt) m "dotproduct" ms).render = "0.5000"
    ∧ (∀ s1 s2 : ℝ, s1 ≤ s2 →
        (Binary64.normalizeRelevanceScore (Binary64.rounded Real.exp)
            (Binary64.rounded Real.sqrt) s1 "dotproduct" ms).value (F := ℝ)
          ≤ (Binary64.normalizeRelevanceScore (Binary64.rounded Real.exp)
              (Binary64.rounded Real.sqrt) s2 "dotproduct" ms).value)) :=
  ⟨rounded_exp_zero, rounded_exp_monotone, rounded_exp_nonneg, rounded_sqrt_nonneg, by simp,
   dotproduct_binary64_mean_monotone (Binary64.rounded Real.exp) (Binary64.rounded Real.sqrt)
     rounded_exp_zero rounded_exp_monotone rounded_exp_nonneg rounded_sqrt_nonneg
     [⟨1, []⟩, ⟨3, []⟩] (by simp)⟩

end PineconeQuery
